import Mathlib

/-!
# Verification of the promptflow flowchart execution engine

Shallow embedding of the core of the `promptflow` repository: the graph
data model (`State`, `Connector`, `Node`, `Flowchart`), the scheduler
(`Flowchart.run` / `Flowchart.initialize`, here `initRun`), structural
mutation (`add_node`, `add_connector`, `remove_node`), cost aggregation
and the serialization format.

Modelling conventions:
 - GUI-only fields and calls (canvas, selected_element, colors, console
   rendering) are omitted; the console only receives text, which we model
   through the returned execution trace (the list of labels of nodes the
   loop executed, mirroring the `Running node <label>` log lines).
 - Python `None` stored in string slots is modelled by `Option String`
   (`none` = Python `None`); `state.snapshot` maps labels to such values.
 - Python object identity matters for connectors (`list.remove`, `in`
   use identity since `Connector` defines no `__eq__`); it is modelled by
   an explicit `ref : Nat` tag.  Nodes define `__eq__` by `id`, so node
   membership and removal are modelled by `id` comparison.
 - Node bodies that do I/O (HTTP, LLM, files, ...) are collaborators per
   the engine's node contract; they are modelled by the `custom` node
   kind carrying its `run_subclass` body as a function
   `State → State × Except String (Option String)` (on an exception the
   partially mutated state survives, as with Python in-place mutation).
 - Condition scripts are `exec`-defined `main(state)` predicates; the
   `main` obtained from a condition's text is modelled by the connector's
   `condMain` field (a pure predicate that may fail).  The incidental
   insertion of the key `main` into `state.snapshot` by `exec`, and
   mutations of the state performed inside `main`, are not modelled.
 - Loops of the source that need not terminate (`Flowchart.run`'s while
   loop, `add_node`'s relabelling loop, the index-shifting sweep in
   `remove_node`) take explicit fuel; `none`/fuel-exhaustion models
   divergence.
-/

namespace Promptflow

/-- A snapshot cell value: a Python string or `None`. -/
abbrev PyStr := Option String

/-- Association-list lookup, first occurrence (Python dict access). -/
def lookupKV (k : String) : List (String × PyStr) → Option PyStr
  | [] => none
  | (k', v) :: rest => if k' == k then some v else lookupKV k rest

/-- Python dict assignment `d[k] = v`: replace the value at the first
occurrence of `k`, or append a new entry (insertion order preserved). -/
def setKV (k : String) (v : PyStr) : List (String × PyStr) → List (String × PyStr)
  | [] => [(k, v)]
  | (k', v') :: rest => if k' == k then (k, v) :: rest else (k', v') :: setKV k v rest

/-- `promptflow.src.state.State`: the mutable context threaded through a
run.  `snapshot` maps node labels to their last output, `history` is the
append-only log of snapshots, `result` is the last output. -/
structure State where
  snapshot : List (String × PyStr) := []
  history : List (List (String × PyStr)) := []
  result : PyStr := some ""
deriving DecidableEq

/-- `State.__getitem__`: `self.snapshot.get(key, "")` — total, never
raises; missing keys read as the empty string. -/
def State.getItem (st : State) (key : String) : PyStr :=
  match lookupKV key st.snapshot with
  | some v => v
  | none => some ""

/-- `promptflow.src.connectors.connector.DEFAULT_COND_TEMPLATE`. -/
def DEFAULT_COND_TEMPLATE : String := "def main(state):\n\treturn True\n"

/-- `promptflow.src.connectors.connector.DEFAULT_COND_NAME`. -/
def DEFAULT_COND_NAME : String := "Untitled.py"

/-- `promptflow.src.connectors.connector.Connector`: a directed edge.
`node1`/`node2` hold the endpoint node ids (the Python objects are
compared through `NodeBase.__eq__`, which compares ids).  `ref` models
CPython object identity (connectors define no `__eq__`, so `in` and
`list.remove` compare identity).  `condName`/`condText` are the
condition `TextData`'s label and text; `condMain` is the `main`
predicate that `exec`-ing `condText` defines. -/
structure Connector where
  ref : Nat
  id : Option String := none
  node1 : String
  node2 : String
  condName : String := DEFAULT_COND_NAME
  condText : String := DEFAULT_COND_TEMPLATE
  condMain : State → Except String Bool := fun _ => Except.ok true

/-- The node variants needed by the claims.  `start` and `init` are from
`start_node.py` (`init` carries the one-shot `run_once` flag).  `prompt`
is `prompt_node.py` (label and text of its `TextData`).  `custom` stands
for every other variant: it carries the variant's `classname`, its
`run_subclass` body and its `cost` body (collaborators under the node
contract). -/
inductive NodeKind where
  | start
  | init (run_once : Bool)
  | prompt (promptName promptText : String)
  | custom (classname : String)
      (impl : State → State × Except String (Option String))
      (costImpl : State → State × Rat)

/-- `NodeBase` data: stable id, display label, layout position, plus the
variant and the relationally-owned connector lists. -/
structure Node where
  id : String
  label : String
  center_x : Int := 0
  center_y : Int := 0
  kind : NodeKind
  input_connectors : List Connector := []
  output_connectors : List Connector := []

/-- The `classname` a node serializes under (`self.__class__.__name__`). -/
def NodeKind.classname : NodeKind → String
  | .start => "StartNode"
  | .init _ => "InitNode"
  | .prompt _ _ => "PromptNode"
  | .custom cn _ _ => cn

def NodeKind.isInit : NodeKind → Bool
  | .init _ => true
  | _ => false

def NodeKind.isStart : NodeKind → Bool
  | .start => true
  | _ => false

/-- The `run_once` flag of an init node (`false` for other kinds). -/
def Node.runOnce (n : Node) : Bool :=
  match n.kind with
  | .init b => b
  | _ => false

/-- `promptflow.src.flowchart.Flowchart`: node set (insertion order),
global connector set, dirty/running flags.  The canvas, the selection
and the `TextData` registry are GUI-side and not needed by any claim. -/
structure Flowchart where
  nodes : List Node := []
  connectors : List Connector := []
  is_dirty : Bool := false
  is_running : Bool := false

/-- `Flowchart.find_node`: first node with the given id (`none` models
the raised `ValueError`). -/
def findNode (fc : Flowchart) (nid : String) : Option Node :=
  fc.nodes.find? (fun n => n.id == nid)

/-- `Flowchart.init_node` property: `[n for n in nodes if isinstance(n,
InitNode)][0]`; `none` models the `IndexError` when there is none. -/
def Flowchart.init_node (fc : Flowchart) : Option Node :=
  fc.nodes.find? (fun n => n.kind.isInit)

/-- `Flowchart.start_node` property: error when no `StartNode` exists;
with several, the stable sort by input-connector count makes it the
first one with the fewest input connectors. -/
def Flowchart.start_node (fc : Flowchart) : Option Node :=
  match fc.nodes.filter (fun n => n.kind.isStart) with
  | [] => none
  | n :: ns =>
      some (ns.foldl
        (fun best m =>
          if m.input_connectors.length < best.input_connectors.length then m else best)
        n)

/-! ## Node execution contract -/

/-- Left brace character (written via its code point). -/
def lbrace : Char := Char.ofNat 123

/-- Right brace character (written via its code point). -/
def rbrace : Char := Char.ofNat 125

/-- One replacement field of Python `str.format(state=state)` as used by
prompt templates: `state[K]` reads `state[K]` through `State.__getitem__`
(a stored `None` prints as `None`); any other field name raises
`KeyError` exactly as `format` does when the keyword `state` is the only
argument.  Interpolating the whole `state` object would print its
`repr`, which has no counterpart here and is modelled as an error; no
theorem depends on it. -/
def pyFormatField (field : String) (st : State) : Except String String :=
  if field.startsWith "state[" && field.endsWith "]" then
    match st.getItem ((field.drop 6).dropRight 1) with
    | some s => Except.ok s
    | none => Except.ok "None"
  else if field == "state" then
    Except.error "unmodelled field: state object interpolation"
  else Except.error ("KeyError: " ++ field)

/-- Scanner for `str.format`: literal text, doubled braces, and
replacement fields.  Fuel is the remaining character count. -/
def pyFormatAux (st : State) : Nat → List Char → Except String String
  | 0, _ => Except.error "format scanner out of fuel"
  | _ + 1, [] => Except.ok ""
  | fuel + 1, ch :: rest =>
      if ch == lbrace then
        match rest with
        | [] => Except.error "ValueError: single left brace in format string"
        | ch2 :: rest2 =>
            if ch2 == lbrace then
              (pyFormatAux st fuel rest2).map (fun s => String.mk [lbrace] ++ s)
            else
              let field := rest.takeWhile (fun c => c != rbrace)
              match rest.dropWhile (fun c => c != rbrace) with
              | [] => Except.error "ValueError: single left brace in format string"
              | _ :: rest3 =>
                  match pyFormatField (String.mk field) st with
                  | Except.error e => Except.error e
                  | Except.ok v => (pyFormatAux st fuel rest3).map (fun s => v ++ s)
      else if ch == rbrace then
        match rest with
        | ch2 :: rest2 =>
            if ch2 == rbrace then
              (pyFormatAux st fuel rest2).map (fun s => String.mk [rbrace] ++ s)
            else Except.error "ValueError: single right brace in format string"
        | [] => Except.error "ValueError: single right brace in format string"
      else (pyFormatAux st fuel rest).map (fun s => String.mk [ch] ++ s)

/-- `template.format(state=state)` for prompt templates. -/
def pyFormat (template : String) (st : State) : Except String String :=
  pyFormatAux st (template.length + 1) template.toList

/-- `run_subclass` of each variant.  On success, the textual output
(`none` is the termination signal) and the node's updated kind (only the
init node changes: its `run_once` flag is set).  The state is returned
in both cases because Python mutates it in place, so mutations made
before an exception survive. -/
def Node.run_subclass (n : Node) (st : State) :
    State × Except String (Option String × NodeKind) :=
  match n.kind with
  | .start => (st, Except.ok (some "", .start))
  | .init b =>
      if b then (st, Except.ok (none, .init true))
      else (st, Except.ok (some "", .init true))
  | .prompt pn pt =>
      match pyFormat pt st with
      | Except.ok s => ({ st with result := some s }, Except.ok (some s, .prompt pn pt))
      | Except.error e => (st, Except.error e)
  | .custom cn impl costImpl =>
      match impl st with
      | (st', Except.ok out) => (st', Except.ok (out, .custom cn impl costImpl))
      | (st', Except.error e) => (st', Except.error e)

/-- `NodeBase.run_node`: seed `snapshot[label]` with its current value
(or `""`), run the variant body, then record the output under the label
and in `result`. -/
def Node.run_node (n : Node) (st : State) :
    State × Except String (Option String × Node) :=
  let st1 : State :=
    { st with snapshot := setKV n.label ((lookupKV n.label st.snapshot).getD (some "")) st.snapshot }
  match n.run_subclass st1 with
  | (st2, Except.error e) => (st2, Except.error e)
  | (st2, Except.ok (out, kind')) =>
      ({ st2 with snapshot := setKV n.label out st2.snapshot, result := out },
       Except.ok (out, { n with kind := kind' }))

/-! ## The scheduler (`Flowchart.run` and the connector scan) -/

/-- ASCII whitespace, for Python's `str.strip()`. -/
def isSpaceChar (c : Char) : Bool :=
  c == ' ' || c == '\t' || c == '\n' || c == '\r'

/-- Truthiness of `text.strip()`: true exactly when some character is
not whitespace. -/
def strippedNonEmpty (s : String) : Bool :=
  s.toList.any (fun c => !isSpaceChar c)

/-- Connector gate: an empty/whitespace condition text is always true,
otherwise the `exec`-defined `main(state)` decides (its exception is the
`cond = state.snapshot["main"](state)` failure the loop catches). -/
def evalCondition (c : Connector) (st : State) : Except String Bool :=
  if strippedNonEmpty c.condText then c.condMain st else Except.ok true

/-- The `for connector in cur_node.output_connectors` scan of
`Flowchart.run`, acting on the queue. A failing condition breaks the
scan (the surrounding while loop continues).  A true condition enqueues
the destination and breaks — but only when the destination is not
already queued; otherwise the scan continues with the next connector. -/
def scanConnectors (st : State) : List Connector → List String → List String
  | [], queue => queue
  | c :: cs, queue =>
      match evalCondition c st with
      | Except.error _ => queue
      | Except.ok cond =>
          if cond then
            if queue.contains c.node2 then scanConnectors st cs queue
            else queue ++ [c.node2]
          else scanConnectors st cs queue

/-- In-place mutation of a node object, seen through the flowchart: the
entry with the node's id is replaced. -/
def updateNode (fc : Flowchart) (n : Node) : Flowchart :=
  { fc with nodes := fc.nodes.map (fun m => if m.id == n.id then n else m) }

/-- The while loop of `Flowchart.run`.  The queue holds node ids (the
source holds the objects; node equality is id equality).  The third
component of the result is the execution trace: the labels of the nodes
run, in order (the source's `Running node <label>` log lines).  `none`
models divergence (fuel exhausted) or the `ValueError` of `find_node`. -/
def runLoop : Nat → Flowchart → State → List String → Option (Flowchart × State × List String)
  | _, fc, st, [] => some (fc, st, [])
  | 0, _, _, _ :: _ => none
  | fuel + 1, fc, st, nid :: rest =>
      if !fc.is_running then some (fc, st, [])
      else
        match findNode fc nid with
        | none => none
        | some cur =>
            match cur.run_node st with
            | (st2, Except.error _) => some (fc, st2, [cur.label])
            | (st2, Except.ok (out, cur')) =>
                let fc2 := updateNode fc cur'
                match out with
                | none => some (fc2, st2, [cur.label])
                | some o =>
                    let st3 : State := { st2 with result := some o }
                    let queue2 := scanConnectors st3 cur'.output_connectors rest
                    match runLoop fuel fc2 st3 queue2 with
                    | none => none
                    | some (fc3, st4, tr) => some (fc3, st4, cur.label :: tr)

/-- `Flowchart.run`: an empty (or omitted) queue defaults to the start
node; `is_running` is set and the loop entered. -/
def Flowchart.run (fc : Flowchart) (st : State) (queue : List String) (fuel : Nat) :
    Option (Flowchart × State × List String) :=
  let fc1 : Flowchart := { fc with is_running := true }
  if queue.isEmpty then
    match fc1.start_node with
    | none => none
    | some s => runLoop fuel fc1 st [s.id]
  else runLoop fuel fc1 st queue

/-- `Flowchart.initialize` (the source's name is unavailable here): when
the init node has already run, print `[System: Already initialized]` and
return the state unchanged; otherwise enter the run loop with the queue
seeded with just the init node. -/
def Flowchart.initRun (fc : Flowchart) (st : State) (fuel : Nat) :
    Option (Flowchart × State × List String) :=
  match fc.init_node with
  | none => none
  | some i =>
      if i.runOnce then some (fc, st, [])
      else fc.run st [i.id] fuel

/-! ## Cost aggregation -/

/-- `cost` of one node: `NodeBase.cost` writes the empty placeholder
under the node's label and costs `0.0`; `PromptNode.cost` overrides it,
setting `state.result` to the prompt text (no snapshot write) and
costing `0`; other variants carry their own override. -/
def Node.cost (n : Node) (st : State) : State × Rat :=
  match n.kind with
  | .prompt _ pt => ({ st with result := some pt }, 0)
  | .custom _ _ costImpl => costImpl st
  | _ => ({ st with snapshot := setKV n.label (some "") st.snapshot }, 0)

/-- `Flowchart.cost`: `cost = 0; for node in nodes: cost += node.cost(state)`. -/
def Flowchart.cost (fc : Flowchart) (st : State) : State × Rat :=
  fc.nodes.foldl (fun acc n => let r := n.cost acc.1; (r.1, acc.2 + r.2)) (st, 0)

/-- Specification-side reading of cost aggregation: the list of the
individual `node.cost(state)` values, each taken on the state as mutated
by the previous calls (collection order). -/
def costsAlong : List Node → State → List Rat
  | [], _ => []
  | n :: ns, st => (n.cost st).2 :: costsAlong ns (n.cost st).1

/-- Specification-side reading of the state mutation of the cost pass. -/
def stateAlong : List Node → State → State
  | [], st => st
  | n :: ns, st => stateAlong ns (n.cost st).1

/-! ## Structural mutation: adding and removing nodes and connectors -/

/-- The `while node in self.nodes` relabelling loop of
`Flowchart.add_node`.  Membership is decided by `NodeBase.__eq__`, i.e.
by `id`, while the loop body only appends `" (copy)"` to the label — the
membership test never changes, so on an id collision the loop never
exits (fuel exhaustion, `none`). -/
def addNodeRelabel (fc : Flowchart) : Nat → Node → Option Node
  | 0, _ => none
  | fuel + 1, n =>
      if fc.nodes.any (fun m => m.id == n.id) then
        addNodeRelabel fc fuel { n with label := n.label ++ " (copy)" }
      else some n

/-- `Flowchart.add_node` with the relabelling loop folded to its fixed
behaviour: on an id collision the loop never terminates (`none`),
otherwise the node is appended unchanged and the chart marked dirty. -/
def Flowchart.add_node (fc : Flowchart) (n : Node) : Option Flowchart :=
  if fc.nodes.any (fun m => m.id == n.id) then none
  else some { fc with nodes := fc.nodes ++ [n], is_dirty := true }

/-- `Flowchart.add_connector`: append to the global list and mark dirty
(the source performs no validity check here). -/
def Flowchart.add_connector (fc : Flowchart) (c : Connector) : Flowchart :=
  { fc with connectors := fc.connectors ++ [c], is_dirty := true }

/-- The endpoint bookkeeping of `Connector.__init__`:
`node1.output_connectors.append(self)` and
`node2.input_connectors.append(self)`. -/
def attachConnector (fc : Flowchart) (c : Connector) : Flowchart :=
  { fc with
    nodes := fc.nodes.map (fun n =>
      let n1 := if n.id == c.node1 then { n with output_connectors := n.output_connectors ++ [c] } else n
      if n1.id == c.node2 then { n1 with input_connectors := n1.input_connectors ++ [c] } else n1) }

/-- `NodeBase.get_children`: the destinations of the node's output
connectors (direct successors only). -/
def getChildren (n : Node) : List String :=
  n.output_connectors.map (fun c => c.node2)

/-- `Connector.detect_cycle`: true when the connector is a self-loop or
its source is a direct child of its destination (node equality is id
equality; `node2` is resolved in the flowchart as the source resolves it
through the shared object). -/
def Connector.detect_cycle (fc : Flowchart) (c : Connector) : Bool :=
  c.node1 == c.node2 ||
    (match findNode fc c.node2 with
     | some n2 => (getChildren n2).contains c.node1
     | none => false)

/-- Error text of a rejected connector. -/
def cycleError : String := "connector would create a cycle"

/-- Modelled from the spec: the add-time path for connectors lives in
`PartialConnector.finish`, which is not among the sources (only its
callers are).  Per the spec, adding a connector first constructs it
(attaching it to both endpoints), then rejects it when `detect_cycle`
reports a self-loop or a cycle — in which case the connector is never
added and the flowchart is unchanged — and otherwise inserts it through
`Flowchart.add_connector`. -/
def addConnectorChecked (fc : Flowchart) (c : Connector) : Except String Flowchart :=
  let fc1 := attachConnector fc c
  if Connector.detect_cycle fc1 c then Except.error cycleError
  else Except.ok (fc1.add_connector c)

/-- Does the connector touch (start or end at) the node with this id? -/
def connTouches (nid : String) (c : Connector) : Bool :=
  c.node1 == nid || c.node2 == nid

/-- Remove the first connector with the given identity tag
(`list.remove` under object identity); removing an absent connector is a
no-op here — at every use site of the embedding the element is present,
so the `ValueError` path of `list.remove` is unreachable. -/
def eraseRef (r : Nat) : List Connector → List Connector
  | [] => []
  | c :: cs => if c.ref == r then cs else c :: eraseRef r cs

/-- Remove the first node equal (by `NodeBase.__eq__`, i.e. by id) to
the given id — `self.nodes.remove(node)` guarded by `node in self.nodes`. -/
def eraseNodeById (nid : String) : List Node → List Node
  | [] => []
  | n :: ns => if n.id == nid then ns else n :: eraseNodeById nid ns

/-- The endpoint-list part of `Connector.delete`, applied to one node:
the connector leaves the `output_connectors` of its source and the
`input_connectors` of its destination. -/
def deleteCNodeF (c : Connector) (n : Node) : Node :=
  let n1 :=
    if n.id == c.node1 then
      { n with output_connectors := eraseRef c.ref n.output_connectors } else n
  if n1.id == c.node2 then
    { n1 with input_connectors := eraseRef c.ref n1.input_connectors } else n1

/-- `Connector.delete`: remove the connector from the global list (only
when present, as the source guards) and from its endpoints' connector
lists (the endpoint objects are reached through the flowchart; an
endpoint already detached from the node set keeps its own state, which
the flowchart no longer observes). -/
def Connector.deleteC (fc : Flowchart) (c : Connector) : Flowchart :=
  { fc with
    connectors :=
      if fc.connectors.any (fun x => x.ref == c.ref) then eraseRef c.ref fc.connectors
      else fc.connectors,
    nodes := fc.nodes.map (deleteCNodeF c) }

/-- The explicit removals of `remove_node`'s first loop (its lines after
`connector.delete()`): drop the connector from the host node's own
lists when still present. -/
def hostEraseF (hostId : String) (r : Nat) (m : Node) : Node :=
  if m.id == hostId then
    { m with
      input_connectors := eraseRef r m.input_connectors,
      output_connectors := eraseRef r m.output_connectors }
  else m

/-- One connector of the host's snapshot, processed by the first loop of
`remove_node`: a connector touching the removed node is deleted and then
also dropped from the host's own lists. -/
def hostStep (nid hostId : String) (fc2 : Flowchart) (c : Connector) : Flowchart :=
  if connTouches nid c then
    let fc3 := Connector.deleteC fc2 c
    { fc3 with nodes := fc3.nodes.map (hostEraseF hostId c.ref) }
  else fc2

/-- One turn of the first loop of `Flowchart.remove_node`: for the host
node `hostId`, walk the snapshot `n.connectors = n.input_connectors +
n.output_connectors` taken at the start of its turn. -/
def removeNodeHost (nid : String) (fc1 : Flowchart) (hostId : String) : Flowchart :=
  match findNode fc1 hostId with
  | none => fc1
  | some n =>
      (n.input_connectors ++ n.output_connectors).foldl (hostStep nid hostId) fc1

/-- The final `for connector in self.connectors` sweep of
`Flowchart.remove_node`.  Python's for statement iterates by an index
that advances even when `Connector.delete` shrinks the very list being
iterated, so the element after a deleted one is skipped. -/
def connectorSweep (nid : String) : Nat → Flowchart → Nat → Flowchart
  | 0, fc, _ => fc
  | fuel + 1, fc, i =>
      if h : i < fc.connectors.length then
        let c := fc.connectors.get ⟨i, h⟩
        if connTouches nid c then connectorSweep nid fuel (Connector.deleteC fc c) (i + 1)
        else connectorSweep nid fuel fc (i + 1)
      else fc

/-- Stage 1 of `Flowchart.remove_node`: `if node in self.nodes:
self.nodes.remove(node)`. -/
def removeStage1 (nid : String) (fc : Flowchart) : Flowchart :=
  { fc with nodes := eraseNodeById nid fc.nodes }

/-- Stage 2 of `Flowchart.remove_node`: the `for n in self.nodes` loop,
one host turn per remaining node. -/
def removeStage2 (nid : String) (fc1 : Flowchart) : Flowchart :=
  (fc1.nodes.map (fun n => n.id)).foldl (removeNodeHost nid) fc1

/-- Stage 3 of `Flowchart.remove_node`: the final `for connector in
self.connectors` sweep.  The fuel bound `connectors.length + 1` is
sufficient: the index grows by one per step and the list never grows. -/
def removeStage3 (nid : String) (fc2 : Flowchart) : Flowchart :=
  connectorSweep nid (fc2.connectors.length + 1) fc2 0

/-- `Flowchart.remove_node`: drop the node, then the two connector
cleanup passes, then mark dirty. -/
def Flowchart.remove_node (fc : Flowchart) (node : Node) : Flowchart :=
  { removeStage3 node.id (removeStage2 node.id (removeStage1 node.id fc)) with
    is_dirty := true }

/-! ## Serialization -/

/-- The JSON-like records exchanged by `serialize`/`deserialize`. -/
inductive JValue where
  | str (s : String)
  | int (n : Int)
  | obj (fields : List (String × JValue))
  | arr (xs : List JValue)
  | null

/-- Dict lookup on a record. -/
def lookupField (fields : List (String × JValue)) (k : String) : Option JValue :=
  match fields.find? (fun f => f.1 == k) with
  | some f => some f.2
  | none => none

/-- `d[k]` on a record: `KeyError` when absent. -/
def getField (v : JValue) (k : String) : Except String JValue :=
  match v with
  | .obj fields =>
      match lookupField fields k with
      | some x => Except.ok x
      | none => Except.error ("KeyError: " ++ k)
  | _ => Except.error "TypeError: not a dict"

/-- Coerce a record value to a string. -/
def asStr (v : JValue) : Except String String :=
  match v with
  | .str s => Except.ok s
  | _ => Except.error "TypeError: expected a string"

/-- Coerce a record value to a number. -/
def asInt (v : JValue) : Except String Int :=
  match v with
  | .int n => Except.ok n
  | _ => Except.error "TypeError: expected a number"

/-- `Connector.serialize`: note the emitted keys `prev`, `next`,
`conditional` and `label`. -/
def Connector.serializeC (c : Connector) : List (String × JValue) :=
  [("id", match c.id with | some s => JValue.str s | none => JValue.null),
   ("prev", JValue.str c.node1),
   ("next", JValue.str c.node2),
   ("conditional", JValue.str c.condText),
   ("label", JValue.str c.condName)]

/-- Modelled from the spec: `TextData.serialize` (the module
`text_data.py` is not among the sources; per the spec a `TextData` is a
named editable text blob with `label` and `text`). -/
def serializeTextData (label text : String) : JValue :=
  JValue.obj [("label", JValue.str label), ("text", JValue.str text)]

/-- `NodeBase.serialize` plus the variant's extra fields
(`PromptNode.serialize` adds its prompt `TextData`). -/
def Node.serializeN (n : Node) : List (String × JValue) :=
  [("id", JValue.str n.id),
   ("label", JValue.str n.label),
   ("center_x", JValue.int n.center_x),
   ("center_y", JValue.int n.center_y),
   ("classname", JValue.str n.kind.classname)] ++
  (match n.kind with
   | .prompt pn pt => [("prompt", serializeTextData pn pt)]
   | _ => [])

/-- `Flowchart.serialize`: the node records in collection order, then
the connector records. -/
def Flowchart.serializeF (fc : Flowchart) : JValue :=
  JValue.obj
    [("nodes", JValue.arr (fc.nodes.map (fun n => JValue.obj n.serializeN))),
     ("connectors", JValue.arr (fc.connectors.map (fun c => JValue.obj c.serializeC)))]

/-- The `InitNode` the `Flowchart` constructor adds (its id is a fresh
`uuid1`, modelled by a fixed tag). -/
def initNodeDefault : Node :=
  { id := "uuid-init", label := "Init", center_x := 10, center_y := 10, kind := .init false }

/-- The `StartNode` the `Flowchart` constructor adds. -/
def startNodeDefault : Node :=
  { id := "uuid-start", label := "Start", center_x := 10, center_y := 210, kind := .start }

/-- `Flowchart.__init__`: a fresh chart already holds one `InitNode` and
one `StartNode` (added through `add_node`, which marks it dirty). -/
def newFlowchart : Flowchart :=
  { nodes := [initNodeDefault, startNodeDefault], connectors := [],
    is_dirty := true, is_running := false }

/-- `eval(node_data["classname"]).deserialize(flowchart, node_data)` for
the embedded variants.  The constructors of `StartNode` and `InitNode`
raise when the flowchart already holds a node of that class.  Records of
other classnames belong to variants whose deserializers are collaborator
bodies; none of the theorems depends on them. -/
def deserializeNodeRecord (fc : Flowchart) (v : JValue) : Except String Node := do
  let cn ← asStr (← getField v "classname")
  if cn == "InitNode" then
    if fc.nodes.any (fun n => n.kind.isInit) then
      Except.error "Only one init node is allowed"
    else do
      let nid ← asStr (← getField v "id")
      let label ← asStr (← getField v "label")
      let cx ← asInt (← getField v "center_x")
      let cy ← asInt (← getField v "center_y")
      Except.ok { id := nid, label := label, center_x := cx, center_y := cy, kind := .init false }
  else if cn == "StartNode" then
    if fc.nodes.any (fun n => n.kind.isStart) then
      Except.error "Only one start node is allowed"
    else do
      let nid ← asStr (← getField v "id")
      let label ← asStr (← getField v "label")
      let cx ← asInt (← getField v "center_x")
      let cy ← asInt (← getField v "center_y")
      Except.ok { id := nid, label := label, center_x := cx, center_y := cy, kind := .start }
  else if cn == "PromptNode" then do
    let nid ← asStr (← getField v "id")
    let label ← asStr (← getField v "label")
    let cx ← asInt (← getField v "center_x")
    let cy ← asInt (← getField v "center_y")
    let p ← getField v "prompt"
    let pn ← asStr (← getField p "label")
    let pt ← asStr (← getField p "text")
    Except.ok { id := nid, label := label, center_x := cx, center_y := cy, kind := .prompt pn pt }
  else Except.error ("unmodelled classname: " ++ cn)

/-- `Connector.__init__` when handed a condition string (the
deserializer passes `connector_data.get("condition", "")`): an empty
string is falsy, so the default `TextData` applies; otherwise the text
is wrapped under the name `Untitled`.  The `main` the text would define
under `exec` is a collaborator; no theorem evaluates deserialized
conditions. -/
def connectorFromText (ref : Nat) (n1 n2 : String) (condStr : String) : Connector :=
  if condStr == "" then { ref := ref, node1 := n1, node2 := n2 }
  else { ref := ref, node1 := n1, node2 := n2, condName := "Untitled", condText := condStr }

/-- The node pass of `Flowchart.deserialize`. -/
def deserNodes (fc : Flowchart) : List JValue → Except String Flowchart
  | [] => Except.ok fc
  | v :: vs => do
      let n ← deserializeNodeRecord fc v
      match fc.add_node n with
      | some fc' => deserNodes fc' vs
      | none => Except.error "add_node never terminates on an id collision"

/-- The connector pass of `Flowchart.deserialize`: note the keys it
reads — `node1`, `node2` and `condition`. -/
def deserConns (fc : Flowchart) (ref : Nat) : List JValue → Except String Flowchart
  | [] => Except.ok fc
  | v :: vs => do
      let n1id ← asStr (← getField v "node1")
      let n2id ← asStr (← getField v "node2")
      let _ ← match findNode fc n1id with
        | some n => Except.ok n
        | none => Except.error ("No node with id " ++ n1id ++ " found")
      let _ ← match findNode fc n2id with
        | some n => Except.ok n
        | none => Except.error ("No node with id " ++ n2id ++ " found")
      let condStr ←
        match lookupField (match v with | .obj fs => fs | _ => []) "condition" with
        | some cv => asStr cv
        | none => Except.ok ""
      let c := connectorFromText ref n1id n2id condStr
      deserConns ((attachConnector fc c).add_connector c) (ref + 1) vs

/-- `Flowchart.deserialize`: a fresh chart (constructor: Init and Start
already present), the node records, then the connector records resolved
against the just-built node set, then the dirty flag cleared. -/
def deserializeF (data : JValue) : Except String Flowchart := do
  let nodesV ← getField data "nodes"
  let connsV ← getField data "connectors"
  let nodeRecords ← match nodesV with
    | JValue.arr xs => Except.ok xs
    | _ => Except.error "TypeError: nodes is not a list"
  let connRecords ← match connsV with
    | JValue.arr xs => Except.ok xs
    | _ => Except.error "TypeError: connectors is not a list"
  let fc1 ← deserNodes newFlowchart nodeRecords
  let fc2 ← deserConns fc1 0 connRecords
  Except.ok { fc2 with is_dirty := false }

/-- Surface an `Except`'s error text (`""` for success) — used to state
concrete failure results. -/
def errText {α : Type} : Except String α → String
  | Except.error e => e
  | Except.ok _ => ""

/-- Did the computation succeed? -/
def isOkE {α : Type} : Except String α → Bool
  | Except.ok _ => true
  | Except.error _ => false

/-! ## Concrete charts used as counterexamples and witnesses -/

/-- A side-effect-free collaborator node body returning a fixed output. -/
def pureImpl (out : String) : State → State × Except String (Option String) :=
  fun st => (st, Except.ok (some out))

/-- The inherited `NodeBase.cost` body, for collaborator variants that
do not override it. -/
def baseCostImpl (label : String) : State → State × Rat :=
  fun st => ({ st with snapshot := setKV label (some "") st.snapshot }, 0)

/-- A collaborator node with a fixed output and the inherited cost. -/
def funcNode (nid label out : String) : Node :=
  { id := nid, label := label,
    kind := .custom "FuncNode" (pureImpl out) (baseCostImpl label) }

/-- Chart for the C2 counterexample: node `n` with two always-true
outgoing connectors, to `A` and to `B`, in that attachment order. -/
def c2a : Connector := { ref := 1, node1 := "n", node2 := "A" }

def c2b : Connector := { ref := 2, node1 := "n", node2 := "B" }

def fcC2 : Flowchart :=
  { nodes :=
      [ { funcNode "n" "n" "out" with output_connectors := [c2a, c2b] },
        { funcNode "A" "A" "a" with input_connectors := [c2a] },
        { funcNode "B" "B" "b" with input_connectors := [c2b] } ] }

/-- Chart for the C3 counterexample: a not-yet-run init node wired to
the start node by a default (always-true) connector. -/
def c3conn : Connector := { ref := 1, node1 := "i", node2 := "s" }

def fcC3 : Flowchart :=
  { nodes :=
      [ { id := "i", label := "Init", kind := .init false, output_connectors := [c3conn] },
        { id := "s", label := "Start", kind := .start, input_connectors := [c3conn] } ] }

/-- Boolean reading of a connector's gate (false on an evaluation
error). -/
def condHolds (st : State) (c : Connector) : Bool :=
  match evalCondition c st with
  | Except.ok b => b
  | Except.error _ => false

/-- Lone not-yet-run init node, the C3 witness chart. -/
def initW3 : Node := { id := "i", label := "Init", kind := .init false }

/-- The C3 witness chart. -/
def fcW3 : Flowchart := { nodes := [initW3] }

/-- Kinds that inherit `NodeBase.cost` (write the placeholder under the
label, cost `0.0`); `PromptNode` and the other overriding variants do
not. -/
def NodeKind.usesBaseCost : NodeKind → Bool
  | .start => true
  | .init _ => true
  | _ => false

/-- Chart for the C7 counterexample: the two constructor nodes plus a
prompt node labelled `P`. -/
def fcC7 : Flowchart :=
  { nodes := [ { id := "i", label := "Init", kind := .init false },
               { id := "s", label := "Start", kind := .start },
               { id := "p", label := "P", kind := .prompt "Prompt" "T" } ] }

/-- A collaborator node whose body raises (e.g. an HTTP node hitting a
dead endpoint) — the C6 witness. -/
def badNode : Node :=
  { id := "bad", label := "Bad",
    kind := .custom "HttpNode" (fun st => (st, Except.error "connection refused"))
      (baseCostImpl "Bad") }

/-- The C6 witness chart (`is_running` already set, as inside `run`). -/
def fcC6 : Flowchart :=
  { nodes := [badNode, funcNode "next" "Next" "x"], is_running := true }

/-- A state carrying the output of an already-executed node. -/
def stC6 : State := { snapshot := [("First", some "v1")], result := some "v1" }

/-- The C1 round-trip input: a fresh chart (Init and Start) and one
default connector from Init to Start. -/
def rtConn : Connector := { ref := 1, node1 := "uuid-init", node2 := "uuid-start" }

def fcRT : Flowchart := (attachConnector newFlowchart rtConn).add_connector rtConn

/-- Chart for the C5 counterexample: the chain `A → B → C`. -/
def c5ab : Connector := { ref := 1, node1 := "A", node2 := "B" }

def c5bc : Connector := { ref := 2, node1 := "B", node2 := "C" }

def fcC5 : Flowchart :=
  { nodes := [ { funcNode "A" "A" "a" with output_connectors := [c5ab] },
               { funcNode "B" "B" "b" with input_connectors := [c5ab], output_connectors := [c5bc] },
               { funcNode "C" "C" "c" with input_connectors := [c5bc] } ],
    connectors := [c5ab, c5bc] }

/-- The closing edge `C → A` of a 3-cycle over `fcC5`. -/
def c5ca : Connector := { ref := 3, node1 := "C", node2 := "A" }

/-- The C5 witness chart and its self-loop connector. -/
def fcW5 : Flowchart := { nodes := [funcNode "X" "X" "x"] }

def selfLoopW : Connector := { ref := 9, node1 := "X", node2 := "X" }

/-- Init bookkeeping after the init node has run: some node with this id
is the flagged init node, every init-kind node has this id, and node ids
are distinct.  This is the loop invariant behind the exactly-once
property of `initialize`. -/
def InitFlagged (iid : String) (fc : Flowchart) : Prop :=
  (∃ j ∈ fc.nodes, j.id = iid ∧ j.kind = NodeKind.init true) ∧
  (∀ n ∈ fc.nodes, n.kind.isInit = true → n.id = iid) ∧
  (fc.nodes.map (fun n => n.id)).Nodup

/-- The C4 witness chart after its first `initialize` call. -/
def fcW4 : Flowchart :=
  { nodes := [{ id := "i", label := "Init", kind := .init true }], is_running := true }

/-- The C4 witness state after its first `initialize` call. -/
def stW4 : State := { snapshot := [("Init", some "")], result := some "" }

/-- Two self-loop connectors on one node, the C8 counterexample. -/
def sl1 : Connector := { ref := 1, node1 := "X", node2 := "X" }

def sl2 : Connector := { ref := 2, node1 := "X", node2 := "X" }

def nodeX : Node :=
  { funcNode "X" "X" "x" with
    input_connectors := [sl1, sl2], output_connectors := [sl1, sl2] }

def fcC8 : Flowchart := { nodes := [nodeX], connectors := [sl1, sl2] }

/-- The C8 witness chart: `A → X`, then `X` is removed. -/
def w8conn : Connector := { ref := 5, node1 := "A", node2 := "X" }

def nodeA8 : Node := { funcNode "A" "A" "a" with output_connectors := [w8conn] }

def nodeX8 : Node := { funcNode "X" "X2" "x" with input_connectors := [w8conn] }

def fcW8 : Flowchart := { nodes := [nodeA8, nodeX8], connectors := [w8conn] }

/-! ## C10 — total state indexing -/

/-- C10: `State.__getitem__` is total — `state[key]` yields the stored
snapshot value when the key is present and the empty string when it is
absent; being a total function of type `State → String → PyStr` it never
raises, so prompt templates that reference unknown labels format against
the empty string. -/
theorem claim_C10_getitem_total (st : State) (k : String) :
    (∀ v, lookupKV k st.snapshot = some v → st.getItem k = v) ∧
    (lookupKV k st.snapshot = none → st.getItem k = some "") := by
  refine ⟨fun v h => ?_, fun h => ?_⟩ <;> simp [State.getItem, h]

/-- Concrete instance of C10: a present key reads back its value, an
absent key reads back `""`. -/
theorem claim_C10_witness :
    State.getItem { snapshot := [("a", some "x")] } "a" = some "x" ∧
    State.getItem { snapshot := [("a", some "x")] } "b" = some "" :=
  ⟨(claim_C10_getitem_total { snapshot := [("a", some "x")] } "a").1 (some "x") rfl,
   (claim_C10_getitem_total { snapshot := [("a", some "x")] } "b").2 rfl⟩

/-! ## C2 — single successor per visit -/

/-- C2 counterexample: in one execution step of the run loop on `fcC2`
with the queue `[n, A]`, the first connector of `n` is satisfied (its
condition evaluates true on the post-output state), yet its destination
`A` is not (re-)enqueued and the scan continues: the second connector's
destination `B` is enqueued and later executed, as the trace
`[n, A, B]` shows — contradicting "no connector after it is evaluated or
enqueued". -/
theorem claim_C2_counterexample :
    evalCondition c2a { snapshot := [("n", some "out")], result := some "out" } = Except.ok true ∧
    (Flowchart.run fcC2 {} ["n", "A"] 10).map (fun r => r.2.2) = some ["n", "A", "B"] := by
  exact ⟨rfl, rfl⟩

/-- C2 amended: during one execution step, when no condition errors, the
connector scan enqueues the destination of the first connector (in
attachment order) whose condition is true AND whose destination is not
already queued, and stops there; a satisfied connector whose destination
is already queued neither enqueues nor stops the scan.  (When `run`
starts from the default single-node queue the queue is empty at scan
time, so the original first-satisfied reading coincides.) -/
theorem claim_C2_scan_first_available (st : State) (cs : List Connector) (q : List String)
    (hok : ∀ c ∈ cs, isOkE (evalCondition c st) = true) :
    scanConnectors st cs q =
      q ++ ((cs.find? (fun c => condHolds st c && !q.contains c.node2)).map
              (fun c => c.node2)).toList := by
  induction cs with
  | nil => simp [scanConnectors]
  | cons c cs ih =>
      have hc := hok c (List.mem_cons_self c cs)
      have hok' : ∀ x ∈ cs, isOkE (evalCondition x st) = true :=
        fun x hx => hok x (List.mem_cons_of_mem c hx)
      rcases he : evalCondition c st with e | b
      · rw [he] at hc; simp [isOkE] at hc
      · have hch : condHolds st c = b := by simp [condHolds, he]
        have hfind : List.find? (fun x => condHolds st x && !q.contains x.node2) (c :: cs) =
            if b && !q.contains c.node2 then some c
            else List.find? (fun x => condHolds st x && !q.contains x.node2) cs := by
          rw [List.find?_cons]
          simp only [hch]
          cases hb : b && !q.contains c.node2 <;> rfl
        rw [hfind]
        cases b with
        | false =>
            simp only [scanConnectors, he, Bool.false_eq_true, if_false,
              Bool.false_and, if_false]
            exact ih hok'
        | true =>
            cases hq : q.contains c.node2 with
            | true =>
                simp only [scanConnectors, he, if_true, hq, Bool.true_and,
                  Bool.not_true, if_false]
                exact ih hok'
            | false =>
                simp only [scanConnectors, he, if_true, hq, Bool.true_and,
                  Bool.not_false, if_true, List.Sublist.refl]
                rfl

/-- Concrete instance of the amended C2 on the counterexample chart:
with `A` already queued, the scan yields `[A, B]`. -/
theorem claim_C2_witness :
    scanConnectors { snapshot := [("n", some "out")], result := some "out" }
      [c2a, c2b] ["A"] = ["A", "B"] := by
  rw [claim_C2_scan_first_available
        { snapshot := [("n", some "out")], result := some "out" }
        [c2a, c2b] ["A"] (by decide)]
  rfl

/-! ## C3 — initialize executes exactly one node -/

/-- C3 counterexample: on `fcC3` (fresh init node wired to the start
node through an always-true connector), `initialize` executes two nodes
— the init node's successor IS traversed — so "exactly one node
execution before returning" is false. -/
theorem claim_C3_counterexample :
    (Flowchart.initRun fcC3 {} 10).map (fun r => r.2.2) = some ["Init", "Start"] ∧
    (["Init", "Start"] : List String).length ≠ 1 := by
  exact ⟨rfl, by decide⟩

/-- C3 amended: `initialize` on a not-yet-initialized chart runs the
full run loop seeded with the init node, so its satisfied successors are
traversed; it executes exactly one node (the init node itself) precisely
in the degenerate case, e.g. when the init node has no outgoing
connectors. -/
theorem claim_C3_initrun_no_successors
    (fc : Flowchart) (st : State) (fuel : Nat) (i : Node)
    (hinit : fc.init_node = some i)
    (hnotrun : i.runOnce = false)
    (hfind : findNode fc i.id = some i)
    (hout : i.output_connectors = [])
    (hfuel : 1 ≤ fuel) :
    ∃ fc' st', fc.initRun st fuel = some (fc', st', [i.label]) := by
  obtain ⟨f, rfl⟩ : ∃ f, fuel = f + 1 := ⟨fuel - 1, by omega⟩
  obtain ⟨b, hb⟩ : ∃ b, i.kind = NodeKind.init b := by
    have := List.find?_some hinit
    cases hk : i.kind <;> simp [NodeKind.isInit, hk] at this ⊢
  have hb0 : b = false := by
    rw [Node.runOnce, hb] at hnotrun; exact hnotrun
  subst hb0
  have hfind' : findNode { fc with is_running := true } i.id = some i := hfind
  simp only [Flowchart.initRun, hinit, hnotrun, if_false, Flowchart.run,
    List.isEmpty_cons, Bool.false_eq_true, if_false, runLoop, Bool.not_true,
    hfind', Node.run_node, Node.run_subclass, hb, Bool.false_eq_true,
    if_false, hout, scanConnectors]
  exact ⟨_, _, rfl⟩

/-- Concrete instance of the amended C3: an init node with no outgoing
connectors is the only node `initialize` executes. -/
theorem claim_C3_witness :
    ∃ fc' st', Flowchart.initRun fcW3 {} 3 = some (fc', st', ["Init"]) :=
  claim_C3_initrun_no_successors fcW3 {} 3 initW3 rfl rfl rfl rfl (by decide)

/-! ## Shared helper lemmas -/

/-- Dict write/read agreement. -/
theorem lookupKV_setKV (k : String) (v : PyStr) (l : List (String × PyStr)) :
    lookupKV k (setKV k v l) = some v := by
  induction l with
  | nil => simp [setKV, lookupKV]
  | cons p l ih =>
      rcases p with ⟨k', v'⟩
      by_cases h : k' == k
      · simp [setKV, h, lookupKV]
      · simp only [setKV, h, Bool.false_eq_true, if_false, lookupKV]
        exact ih

/-- The running-total fold of `Flowchart.cost`, against the
specification-side threaded reading. -/
theorem costFold (l : List Node) (st : State) (acc : Rat) :
    l.foldl (fun a n => let r := n.cost a.1; (r.1, a.2 + r.2)) (st, acc) =
      (stateAlong l st, acc + (costsAlong l st).sum) := by
  induction l generalizing st acc with
  | nil => simp [stateAlong, costsAlong]
  | cons n l ih =>
      simp only [List.foldl_cons, stateAlong, costsAlong, List.sum_cons]
      rw [ih]
      ring_nf

/-- The relabelling loop of `add_node` never terminates once the id
test holds: relabelling does not change the id, so the test holds at
every iteration. -/
theorem addNodeRelabel_stuck (fc : Flowchart) :
    ∀ (fuel : Nat) (n : Node), fc.nodes.any (fun m => m.id == n.id) = true →
      addNodeRelabel fc fuel n = none := by
  intro fuel
  induction fuel with
  | zero => intro n _; rfl
  | succ fuel ih =>
      intro n h
      simp only [addNodeRelabel, h, if_true]
      exact ih _ h

/-- `find?` by id commutes with an id-preserving map. -/
theorem find?_id_map (l : List Node) (f : Node → Node) (hf : ∀ n, (f n).id = n.id)
    (nid : String) :
    (l.map f).find? (fun n => n.id == nid) = (l.find? (fun n => n.id == nid)).map f := by
  induction l with
  | nil => rfl
  | cons n l ih =>
      simp only [List.map_cons, List.find?_cons, hf n]
      cases h : n.id == nid
      · simpa using ih
      · rfl

/-- `findNode` through an id-preserving rewrite of the node list. -/
theorem findNode_map (fc : Flowchart) (f : Node → Node) (hf : ∀ n, (f n).id = n.id)
    (nid : String) (c : List Connector) (d r : Bool) :
    findNode { nodes := fc.nodes.map f, connectors := c, is_dirty := d, is_running := r } nid =
      (findNode fc nid).map f := by
  unfold findNode
  exact find?_id_map fc.nodes f hf nid

/-! ## C7 — cost accumulation -/

/-- C7 counterexample: on `fcC7` the prompt node's `cost` does not
populate `state.variables` under its label `P` — it sets `state.result`
to the prompt text instead — contradicting "each node's cost call
populates state.variables with a placeholder under that node's label". -/
theorem claim_C7_counterexample :
    (Flowchart.cost fcC7 {}).1.snapshot = [("Init", some ""), ("Start", some "")] ∧
    lookupKV "P" (Flowchart.cost fcC7 {}).1.snapshot = none ∧
    (Flowchart.cost fcC7 {}).1.result = some "T" := by
  exact ⟨rfl, rfl, rfl⟩

/-- C7 amended: `flowchart.cost(state)` equals the sum of the individual
`node.cost(state)` calls taken in collection order on the successively
mutated state, and the pass performs no node's `run` action (`Node.cost`
returns only a state and a number — it cannot produce an output or flip
the init flag).  Each node whose kind inherits `NodeBase.cost` populates
`state.variables` with an empty placeholder under its label; the
`PromptNode` override instead sets `state.result` to the prompt text and
writes no placeholder. -/
theorem claim_C7_cost_sum (fc : Flowchart) (st : State) (n : Node) (st2 : State)
    (hbase : n.kind.usesBaseCost = true) :
    Flowchart.cost fc st = (stateAlong fc.nodes st, (costsAlong fc.nodes st).sum) ∧
    lookupKV n.label (n.cost st2).1.snapshot = some (some "") := by
  constructor
  · unfold Flowchart.cost
    rw [costFold]
    simp
  · rcases hk : n.kind with _ | b | ⟨pn, pt⟩ | ⟨cn, impl, costImpl⟩
    · simp only [Node.cost, hk]
      exact lookupKV_setKV _ _ _
    · simp only [Node.cost, hk]
      exact lookupKV_setKV _ _ _
    · rw [hk] at hbase
      simp [NodeKind.usesBaseCost] at hbase
    · rw [hk] at hbase
      simp [NodeKind.usesBaseCost] at hbase

/-- Concrete instance of the amended C7 on `fcC7`. -/
theorem claim_C7_witness :
    Flowchart.cost fcC7 {} = (stateAlong fcC7.nodes {}, (costsAlong fcC7.nodes {}).sum) ∧
    lookupKV "Init" (Node.cost { id := "i", label := "Init", kind := .init false } {}).1.snapshot =
      some (some "") :=
  claim_C7_cost_sum fcC7 {} { id := "i", label := "Init", kind := .init false } {} rfl

/-! ## C6 — execution-error atomicity of the run loop -/

/-- C6: when the node at the head of the queue raises, the scheduler
catches the exception (the loop returns a value instead of
propagating), no node after the failing one executes (the rest of the
queue is dropped; the trace records only the failing node), and the
state as accumulated up to the failure — including the failing node's
own pre-write — is returned, not discarded or rolled back. -/
theorem claim_C6_error_returns_state
    (fc : Flowchart) (st st2 : State) (e : String) (nid : String) (rest : List String)
    (fuel : Nat) (n : Node)
    (hrunning : fc.is_running = true)
    (hfind : findNode fc nid = some n)
    (hrun : n.run_node st = (st2, Except.error e)) :
    runLoop (fuel + 1) fc st (nid :: rest) = some (fc, st2, [n.label]) := by
  simp [runLoop, hrunning, hfind, hrun]

/-- Concrete instance of C6: a failing HTTP-like node with another node
still queued; the run returns the accumulated state (the earlier node's
output is preserved in the snapshot) and the queued node never runs. -/
theorem claim_C6_witness :
    runLoop 5 fcC6 stC6 ["bad", "next"] =
      some (fcC6,
        { snapshot := [("First", some "v1"), ("Bad", some "")], result := some "v1" },
        ["Bad"]) :=
  claim_C6_error_returns_state fcC6 stC6 _ "connection refused" "bad" ["next"] 4 badNode
    rfl rfl rfl

/-! ## C1 — round-trip serialization -/

/-- C1 (code bug): round-tripping fails for every chart.  On `fcRT` (the
constructor's Init and Start plus one connector), `deserialize` of
`serialize` raises instead of rebuilding the chart: `deserialize` starts
from a fresh constructor-built chart that already holds an `InitNode`,
so re-adding the serialized one trips the only-one-init guard.
Independently, the connector serializer emits the source/destination/
condition under the keys `prev`/`next`/`conditional` while the
deserializer reads `node1`/`node2`/`condition`, so connector resolution
raises `KeyError` on every serialized connector record. -/
theorem claim_C1_roundtrip_fails :
    errText (deserializeF (Flowchart.serializeF fcRT)) = "Only one init node is allowed" ∧
    (lookupField (Connector.serializeC rtConn) "node1").isNone = true ∧
    (lookupField (Connector.serializeC rtConn) "prev").isSome = true := by
  exact ⟨rfl, rfl, rfl⟩

/-! ## C9 — addNode disambiguation -/

/-- C9 (code bug): `add_node`'s duplicate test is `NodeBase.__eq__`,
i.e. id equality, while the loop body only suffixes the label — so on an
id collision the relabelling loop never terminates (first conjunct: no
amount of fuel finishes), and a node whose label collides with an
existing one but whose id is fresh is inserted unchanged, leaving two
nodes with the same display label (second conjunct). -/
theorem claim_C9_addnode_bug :
    (∀ fuel, addNodeRelabel newFlowchart fuel
        { id := "uuid-init", label := "Dup", kind := .start } = none) ∧
    (Flowchart.add_node newFlowchart (funcNode "uuid-new" "Init" "")).map
        (fun f => f.nodes.map (fun n => n.label)) = some ["Init", "Start", "Init"] :=
  ⟨fun fuel => addNodeRelabel_stuck newFlowchart fuel _ rfl, rfl⟩

/-! ## C5 — cycle rejection -/

/-- C5 counterexample: with the chain `A → B → C` in place, the closing
edge `C → A` — whose source `C` is reachable from its destination `A`
through existing output edges — is accepted: `detect_cycle` only
inspects the direct children of the destination, so the connector set
grows from `[1, 2]` to `[1, 2, 3]` and a 3-cycle is created. -/
theorem claim_C5_counterexample :
    isOkE (addConnectorChecked fcC5 c5ca) = true ∧
    (match addConnectorChecked fcC5 c5ca with
     | Except.ok f => f.connectors.map (fun c => c.ref)
     | Except.error _ => []) = [1, 2, 3] := by
  exact ⟨rfl, rfl⟩

/-- C5 amended (the add-time wiring is modelled from the spec, see
`addConnectorChecked`): adding a self-loop, or a connector whose source
is a *direct* child (one output edge) of its destination, is rejected
with an error and the flowchart is left unchanged; reachability through
two or more edges is not checked. -/
theorem claim_C5_reject_selfloop_or_direct
    (fc : Flowchart) (c : Connector)
    (h : c.node1 = c.node2 ∨
         (∃ n2, findNode fc c.node2 = some n2 ∧ c.node1 ∈ getChildren n2)) :
    addConnectorChecked fc c = Except.error cycleError := by
  have hdet : Connector.detect_cycle (attachConnector fc c) c = true := by
    by_cases hself : c.node1 = c.node2
    · unfold Connector.detect_cycle
      rw [Bool.or_eq_true]
      left
      simp [hself]
    · rcases h with h | ⟨n2, hfind, hmem⟩
      · exact absurd h hself
      · unfold Connector.detect_cycle
        have hf : ∀ n : Node,
            ((let n1 := if n.id == c.node1 then
                { n with output_connectors := n.output_connectors ++ [c] } else n;
              if n1.id == c.node2 then
                { n1 with input_connectors := n1.input_connectors ++ [c] } else n1) : Node).id
              = n.id := by
          intro n
          dsimp only
          split <;> split <;> rfl
        have hmap : findNode (attachConnector fc c) c.node2 =
            (findNode fc c.node2).map (fun n =>
              let n1 := if n.id == c.node1 then
                { n with output_connectors := n.output_connectors ++ [c] } else n;
              if n1.id == c.node2 then
                { n1 with input_connectors := n1.input_connectors ++ [c] } else n1) := by
          unfold attachConnector
          exact findNode_map fc _ hf c.node2 _ _ _
        rw [hmap, hfind]
        have hid : n2.id = c.node2 := by
          have := List.find?_some hfind
          simpa using this
        have hne : (n2.id == c.node1) = false := by
          simp only [beq_eq_false_iff_ne, ne_eq, hid]
          exact fun hh => hself hh.symm
        have hstep1 : (if n2.id == c.node1 then
            { n2 with output_connectors := n2.output_connectors ++ [c] } else n2) = n2 := by
          rw [hne]
          rfl
        have hstep2 : (if n2.id == c.node2 then
              { n2 with input_connectors := n2.input_connectors ++ [c] } else n2) =
            { n2 with input_connectors := n2.input_connectors ++ [c] } := by
          rw [hid]
          simp
        rw [Bool.or_eq_true]
        right
        simp only [Option.map_some']
        rw [hstep1, hstep2]
        simpa [getChildren] using hmem
  simp [addConnectorChecked, hdet]

/-- Concrete instance of the amended C5: a self-loop is rejected. -/
theorem claim_C5_witness :
    addConnectorChecked fcW5 selfLoopW = Except.error cycleError :=
  claim_C5_reject_selfloop_or_direct fcW5 selfLoopW (Or.inl rfl)

/-! ## C4 — init exactly-once -/

/-- Two members of a node list with distinct ids are equal when their
ids agree. -/
theorem eq_of_mem_ids_nodup (l : List Node) (hn : (l.map (fun n => n.id)).Nodup)
    {a b : Node} (ha : a ∈ l) (hb : b ∈ l) (hid : a.id = b.id) : a = b := by
  induction l with
  | nil => cases ha
  | cons n l ih =>
      rw [List.map_cons, List.nodup_cons] at hn
      rcases List.mem_cons.mp ha with rfl | ha'
      · rcases List.mem_cons.mp hb with rfl | hb'
        · rfl
        · have : a.id ∈ l.map (fun n => n.id) :=
            hid ▸ List.mem_map_of_mem (fun n => n.id) hb'
          exact absurd this hn.1
      · rcases List.mem_cons.mp hb with rfl | hb'
        · have : b.id ∈ l.map (fun n => n.id) :=
            hid ▸ List.mem_map_of_mem (fun n => n.id) ha'
          exact absurd this hn.1
        · exact ih hn.2 ha' hb'

/-- Under distinct ids, looking a member up by its own id returns it. -/
theorem find?_id_self (l : List Node) (hn : (l.map (fun n => n.id)).Nodup)
    {i : Node} (hi : i ∈ l) : l.find? (fun n => n.id == i.id) = some i := by
  induction l with
  | nil => cases hi
  | cons n l ih =>
      rw [List.map_cons, List.nodup_cons] at hn
      rcases List.mem_cons.mp hi with rfl | hi'
      · simp [List.find?_cons]
      · have hne : (n.id == i.id) = false := by
          rw [beq_eq_false_iff_ne]
          intro he
          exact hn.1 (he ▸ List.mem_map_of_mem (fun n => n.id) hi')
        simp only [List.find?_cons, hne]
        exact ih hn.2 hi'

/-- `findNode` version of `find?_id_self`. -/
theorem findNode_self (fc : Flowchart) (hn : (fc.nodes.map (fun n => n.id)).Nodup)
    {i : Node} (hi : i ∈ fc.nodes) : findNode fc i.id = some i :=
  find?_id_self fc.nodes hn hi

/-- A successful `run_subclass` returns the node's kind unchanged except
for the init node, whose flag comes back set. -/
theorem run_subclass_kind (n : Node) (st st' : State) (out : Option String) (k' : NodeKind)
    (h : n.run_subclass st = (st', Except.ok (out, k'))) :
    (n.kind.isInit = true ∧ k' = NodeKind.init true) ∨
      (n.kind.isInit = false ∧ k' = n.kind) := by
  rcases hk : n.kind with _ | b | ⟨pn, pt⟩ | ⟨cn, impl, ci⟩ <;>
    simp only [Node.run_subclass, hk] at h
  · simp only [Prod.mk.injEq, Except.ok.injEq] at h
    exact Or.inr ⟨rfl, h.2.2.symm⟩
  · cases b
    · simp only [Bool.false_eq_true, if_false, Prod.mk.injEq, Except.ok.injEq] at h
      exact Or.inl ⟨rfl, h.2.2.symm⟩
    · simp only [if_true, Prod.mk.injEq, Except.ok.injEq] at h
      exact Or.inl ⟨rfl, h.2.2.symm⟩
  · split at h
    · simp only [Prod.mk.injEq, Except.ok.injEq] at h
      exact Or.inr ⟨rfl, h.2.2.symm⟩
    · simp only [Prod.mk.injEq] at h
      exact absurd h.2 (by simp)
  · split at h
    · simp only [Prod.mk.injEq, Except.ok.injEq] at h
      exact Or.inr ⟨rfl, h.2.2.symm⟩
    · simp only [Prod.mk.injEq] at h
      exact absurd h.2 (by simp)

/-- A successful `run_node` only rewrites the node's kind: the init
node's flag is set, every other kind is returned unchanged. -/
theorem run_node_ok_shape (n : Node) (st st2 : State) (out : Option String) (n' : Node)
    (h : n.run_node st = (st2, Except.ok (out, n'))) :
    ∃ k', n' = { n with kind := k' } ∧
      ((n.kind.isInit = true ∧ k' = NodeKind.init true) ∨
       (n.kind.isInit = false ∧ k' = n.kind)) := by
  unfold Node.run_node at h
  dsimp only [] at h
  split at h
  · simp at h
  · rename_i stx outx kx heq
    simp only [Prod.mk.injEq, Except.ok.injEq] at h
    exact ⟨kx, h.2.2.symm, run_subclass_kind n _ _ _ _ heq⟩

/-- `updateNode` preserves the id sequence. -/
theorem updateNode_ids (fc : Flowchart) (n : Node) :
    (updateNode fc n).nodes.map (fun m => m.id) = fc.nodes.map (fun m => m.id) := by
  unfold updateNode
  rw [List.map_map]
  apply List.map_congr_left
  intro m _
  dsimp only [Function.comp]
  cases h : m.id == n.id
  · rfl
  · rw [if_pos rfl]
    exact (eq_of_beq h).symm

/-- Membership transport into `updateNode`. -/
theorem mem_updateNode (fc : Flowchart) (n m : Node) (hm : m ∈ fc.nodes) :
    (if m.id == n.id then n else m) ∈ (updateNode fc n).nodes := by
  unfold updateNode
  exact List.mem_map_of_mem _ hm

/-- `InitFlagged` is preserved when a member node is rewritten by a
successful `run_node`. -/
theorem initFlagged_updateNode (iid : String) (fc : Flowchart) (cur cur' : Node)
    (hinv : InitFlagged iid fc) (hmem : cur ∈ fc.nodes)
    (hshape : ∃ k', cur' = { cur with kind := k' } ∧
      ((cur.kind.isInit = true ∧ k' = NodeKind.init true) ∨
       (cur.kind.isInit = false ∧ k' = cur.kind))) :
    InitFlagged iid (updateNode fc cur') := by
  obtain ⟨k', rfl, hrel⟩ := hshape
  obtain ⟨⟨j, hj, hjid, hjkind⟩, hall, hnd⟩ := hinv
  refine ⟨?_, ?_, ?_⟩
  · by_cases hcj : cur.id = j.id
    · have hcur : cur = j := eq_of_mem_ids_nodup fc.nodes hnd hmem hj hcj
      subst hcur
      have hinit : cur.kind.isInit = true := by rw [hjkind]; rfl
      have hk' : k' = NodeKind.init true := by
        rcases hrel with ⟨_, hk'⟩ | ⟨hfalse, _⟩
        · exact hk'
        · rw [hinit] at hfalse; cases hfalse
      refine ⟨{ cur with kind := k' }, ?_, by simpa using hjid, by rw [hk']⟩
      have hmm := mem_updateNode fc { cur with kind := k' } cur hmem
      simpa using hmm
    · refine ⟨j, ?_, hjid, hjkind⟩
      have hne : (j.id == ({ cur with kind := k' } : Node).id) = false := by
        rw [beq_eq_false_iff_ne]
        exact fun he => hcj (by simpa using he.symm)
      have hmm := mem_updateNode fc { cur with kind := k' } j hj
      rw [if_neg (by simp [hne])] at hmm
      exact hmm
  · intro m' hm' hminit
    unfold updateNode at hm'
    obtain ⟨m, hm, hfm⟩ := List.mem_map.mp hm'
    by_cases hid : (m.id == ({ cur with kind := k' } : Node).id) = true
    · rw [if_pos hid] at hfm
      subst hfm
      rcases hrel with ⟨hi, _⟩ | ⟨hf, hkk⟩
      · have : cur.id = iid := hall cur hmem hi
        simpa using this
      · rw [hkk] at hminit
        have : cur.kind.isInit = true := hminit
        rw [hf] at this
        cases this
    · rw [if_neg hid] at hfm
      subst hfm
      exact hall m hm hminit
  · rw [updateNode_ids]
    exact hnd

/-- The run loop preserves `InitFlagged`: every exit path returns either
the incoming chart or a chart rewritten through `updateNode` with a
`run_node` result. -/
theorem runLoop_initFlagged (iid : String) :
    ∀ (fuel : Nat) (fc : Flowchart) (st : State) (q : List String)
      (res : Flowchart × State × List String),
      InitFlagged iid fc → runLoop fuel fc st q = some res → InitFlagged iid res.1 := by
  intro fuel
  induction fuel with
  | zero =>
      intro fc st q res hinv h
      cases q with
      | nil =>
          simp only [runLoop, Option.some.injEq] at h
          rw [← h]
          exact hinv
      | cons a q => simp [runLoop] at h
  | succ fuel ih =>
      intro fc st q res hinv h
      cases q with
      | nil =>
          simp only [runLoop, Option.some.injEq] at h
          rw [← h]
          exact hinv
      | cons nid rest =>
          simp only [runLoop] at h
          cases hb : fc.is_running
          · simp only [hb, Bool.not_false, if_true, Option.some.injEq] at h
            rw [← h]
            exact hinv
          · simp only [hb, Bool.not_true, Bool.false_eq_true, if_false] at h
            cases hfn : findNode fc nid with
            | none => rw [hfn] at h; cases h
            | some cur =>
                rw [hfn] at h
                dsimp only [] at h
                split at h
                · rename_i st2x e heq
                  have := Option.some.inj h
                  rw [← this]
                  exact hinv
                · rename_i st2x outx curx heq
                  have hmemcur : cur ∈ fc.nodes := List.mem_of_find?_eq_some hfn
                  have hshape := run_node_ok_shape cur st st2x outx curx heq
                  have hinv2 := initFlagged_updateNode iid fc cur curx hinv hmemcur hshape
                  cases outx with
                  | none =>
                      dsimp only [] at h
                      have := Option.some.inj h
                      rw [← this]
                      exact hinv2
                  | some o =>
                      dsimp only [] at h
                      split at h
                      · cases h
                      · rename_i fc3 st4 tr0 heq2
                        have hinv3 := ih _ _ _ _ hinv2 heq2
                        have := Option.some.inj h
                        rw [← this]
                        exact hinv3

/-- From `InitFlagged`, the chart's `init_node` is its flagged init
node, whose `run_once` reads true. -/
theorem init_node_of_initFlagged (iid : String) (fc : Flowchart) (h : InitFlagged iid fc) :
    ∃ m, fc.init_node = some m ∧ m.runOnce = true := by
  obtain ⟨⟨j, hj, hjid, hjkind⟩, hall, hnd⟩ := h
  have hjinit : j.kind.isInit = true := by rw [hjkind]; rfl
  cases hfind : fc.nodes.find? (fun n => n.kind.isInit) with
  | none =>
      have := List.find?_eq_none.mp hfind j hj
      exact absurd hjinit this
  | some m =>
      have hm : m ∈ fc.nodes := List.mem_of_find?_eq_some hfind
      have hminit0 := List.find?_some hfind
      have hminit : m.kind.isInit = true := by simpa using hminit0
      have hmid : m.id = iid := hall m hm hminit
      have hmj : m = j := eq_of_mem_ids_nodup fc.nodes hnd hm hj (by rw [hmid, hjid])
      refine ⟨m, hfind, ?_⟩
      simp only [Node.runOnce, hmj, hjkind]

/-- A not-yet-run init node, run through `run_node`, returns the empty
output and comes back flagged. -/
theorem run_node_init_false (i : Node) (st : State) (hbk : i.kind = NodeKind.init false) :
    i.run_node st =
      ({ st with
          snapshot := setKV i.label (some "")
            (setKV i.label ((lookupKV i.label st.snapshot).getD (some "")) st.snapshot),
          result := some "" },
       Except.ok (some "", { i with kind := NodeKind.init true })) := by
  unfold Node.run_node
  dsimp only []
  simp only [Node.run_subclass, hbk, Bool.false_eq_true, if_false]

/-- C4: Init exactly-once.  After any successful `initialize`, the
init node's flag is set, so a second `initialize` in the same process
lifetime performs no node execution (empty trace) and returns the
flowchart and the state unchanged; the init node's first-run body
therefore runs at most once across the two calls. -/
theorem claim_C4_second_initrun_noop
    (fc : Flowchart) (st : State) (fuel fuel2 : Nat) (i : Node)
    (hinit : fc.init_node = some i)
    (huniq : ∀ n ∈ fc.nodes, n.kind.isInit = true → n.id = i.id)
    (hids : (fc.nodes.map (fun n => n.id)).Nodup)
    (fc1 : Flowchart) (st1 : State) (tr : List String)
    (h1 : fc.initRun st fuel = some (fc1, st1, tr)) :
    fc1.initRun st1 fuel2 = some (fc1, st1, []) := by
  have himem : i ∈ fc.nodes := List.mem_of_find?_eq_some hinit
  have hiinit0 := List.find?_some hinit
  have hiinit : i.kind.isInit = true := by simpa using hiinit0
  unfold Flowchart.initRun at h1
  rw [hinit] at h1
  dsimp only [] at h1
  cases hro : i.runOnce
  · -- first call actually runs the loop
    rw [hro] at h1
    simp only [Bool.false_eq_true, if_false] at h1
    unfold Flowchart.run at h1
    simp only [List.isEmpty_cons, Bool.false_eq_true, if_false] at h1
    cases fuel with
    | zero => simp [runLoop] at h1
    | succ fuel =>
        obtain ⟨b, hbk⟩ : ∃ b, i.kind = NodeKind.init b := by
          cases hk : i.kind
          case init b => exact ⟨b, rfl⟩
          all_goals (rw [hk] at hiinit; simp [NodeKind.isInit] at hiinit)
        have hbfalse : b = false := by
          have : i.runOnce = b := by simp [Node.runOnce, hbk]
          rw [hro] at this
          exact this.symm
        subst hbfalse
        have hfn : findNode { fc with is_running := true } i.id = some i :=
          findNode_self { fc with is_running := true } (by simpa using hids)
            (by simpa using himem)
        have hrn := run_node_init_false i st hbk
        simp only [runLoop, Bool.not_true, Bool.false_eq_true, if_false] at h1
        rw [hfn] at h1
        dsimp only [] at h1
        rw [hrn] at h1
        dsimp only [] at h1
        have hflag2 : InitFlagged i.id
            (updateNode { fc with is_running := true } { i with kind := NodeKind.init true }) := by
          refine ⟨⟨{ i with kind := NodeKind.init true }, ?_, rfl, rfl⟩, ?_, ?_⟩
          · have hmm := mem_updateNode { fc with is_running := true }
              { i with kind := NodeKind.init true } i (by simpa using himem)
            simpa using hmm
          · intro m' hm' hminit
            unfold updateNode at hm'
            obtain ⟨m, hm, hfm⟩ := List.mem_map.mp hm'
            by_cases hid : (m.id == ({ i with kind := NodeKind.init true } : Node).id) = true
            · rw [if_pos hid] at hfm
              subst hfm
              rfl
            · rw [if_neg hid] at hfm
              subst hfm
              exact huniq m (by simpa using hm) hminit
          · rw [updateNode_ids]
            simpa using hids
        split at h1
        · cases h1
        · rename_i fc3 st4 tr0 heq2
          have hinv3 := runLoop_initFlagged i.id fuel _ _ _ _ hflag2 heq2
          have hinj := Option.some.inj h1
          have hfc : fc3 = fc1 := congrArg Prod.fst hinj
          rw [hfc] at hinv3
          obtain ⟨m, hm1, hm2⟩ := init_node_of_initFlagged i.id fc1 hinv3
          unfold Flowchart.initRun
          rw [hm1]
          dsimp only []
          rw [hm2]
          simp
  · -- already initialized: the first call was itself a no-op
    rw [hro] at h1
    simp only [if_true, Option.some.injEq, Prod.mk.injEq] at h1
    obtain ⟨hfc, hst, -⟩ := h1
    subst hfc
    subst hst
    unfold Flowchart.initRun
    rw [hinit]
    dsimp only []
    rw [hro]
    simp

/-- Concrete instance of C4: after the first `initialize` of the
one-init chart `fcW3` (which yields `fcW4`/`stW4`), the second call is a
no-op: no execution, state returned unchanged. -/
theorem claim_C4_witness : Flowchart.initRun fcW4 stW4 7 = some (fcW4, stW4, []) :=
  claim_C4_second_initrun_noop fcW3 {} 3 7 initW3 rfl (by decide) (by decide)
    fcW4 stW4 ["Init"] rfl

/-! ## C8 — removeNode completeness -/

/-- C8 counterexample: on `fcC8` — one node `X` carrying two self-loop
connectors — `remove_node X` removes the node and the first self-loop
but leaves the second one in the global connector collection: its final
sweep mutates `self.connectors` while iterating it by index, skipping
the element that slides into the deleted one's slot. -/
theorem claim_C8_counterexample :
    ((fcC8.remove_node nodeX).nodes.map (fun n => n.id)) = [] ∧
    ((fcC8.remove_node nodeX).connectors.map (fun c => c.ref)) = [2] ∧
    ((fcC8.remove_node nodeX).connectors.map (connTouches "X")) = [true] := by
  exact ⟨rfl, rfl, rfl⟩

/-- `eraseRef` only removes. -/
theorem eraseRef_sublist (r : Nat) (l : List Connector) : List.Sublist (eraseRef r l) l := by
  induction l with
  | nil => simp [eraseRef]
  | cons c cs ih =>
      unfold eraseRef
      by_cases h : (c.ref == r) = true
      · rw [if_pos h]
        exact List.sublist_cons_self c cs
  -- the other branch keeps the head
      · rw [if_neg h]
        exact List.Sublist.cons₂ c ih

/-- Members survive `eraseRef`. -/
theorem mem_of_eraseRef {r : Nat} {l : List Connector} {x : Connector}
    (hx : x ∈ eraseRef r l) : x ∈ l :=
  (eraseRef_sublist r l).subset hx

/-- With distinct tags, nothing with the erased tag survives
`eraseRef` (also when the tag was absent to begin with). -/
theorem eraseRef_no_ref (r : Nat) (l : List Connector)
    (hnd : (l.map (fun c => c.ref)).Nodup) : ∀ x ∈ eraseRef r l, x.ref ≠ r := by
  induction l with
  | nil => intro x hx; simp [eraseRef] at hx
  | cons c cs ih =>
      rw [List.map_cons, List.nodup_cons] at hnd
      intro x hx
      unfold eraseRef at hx
      by_cases h : (c.ref == r) = true
      · rw [if_pos h] at hx
        intro hxr
        apply hnd.1
        have hm : x.ref ∈ cs.map (fun c => c.ref) := List.mem_map_of_mem _ hx
        rwa [hxr, ← eq_of_beq h] at hm
      · rw [if_neg h] at hx
        rcases List.mem_cons.mp hx with rfl | hx'
        · intro hxr
          exact h (by simp [hxr])
        · exact ih hnd.2 x hx'

/-- An element with a different tag survives `eraseRef`. -/
theorem mem_eraseRef_of_ne (r : Nat) (l : List Connector) {x : Connector}
    (hx : x ∈ l) (hner : x.ref ≠ r) : x ∈ eraseRef r l := by
  induction l with
  | nil => cases hx
  | cons c cs ih =>
      unfold eraseRef
      rcases List.mem_cons.mp hx with rfl | hx'
      · rw [if_neg (by simp [hner])]
        exact List.mem_cons_self _ _
      · by_cases h : (c.ref == r) = true
        · rw [if_pos h]
          exact hx'
        · rw [if_neg h]
          exact List.mem_cons_of_mem c (ih hx')

/-- `eraseNodeById` leaves no node with the erased id when ids are
distinct. -/
theorem eraseNodeById_no_id (nid : String) (l : List Node)
    (hnd : (l.map (fun n => n.id)).Nodup) :
    ∀ n ∈ eraseNodeById nid l, n.id ≠ nid := by
  induction l with
  | nil => intro n hn; simp [eraseNodeById] at hn
  | cons m ms ih =>
      rw [List.map_cons, List.nodup_cons] at hnd
      intro n hn
      unfold eraseNodeById at hn
      by_cases h : (m.id == nid) = true
      · rw [if_pos h] at hn
        intro hid
        apply hnd.1
        have hm : n.id ∈ ms.map (fun n => n.id) := List.mem_map_of_mem _ hn
        rwa [hid, ← eq_of_beq h] at hm
      · rw [if_neg h] at hn
        rcases List.mem_cons.mp hn with rfl | hn'
        · intro hid
          exact h (by simp [hid])
        · exact ih hnd.2 n hn'

/-- `eraseNodeById` only removes. -/
theorem eraseNodeById_sublist (nid : String) (l : List Node) :
    List.Sublist (eraseNodeById nid l) l := by
  induction l with
  | nil => simp [eraseNodeById]
  | cons m ms ih =>
      unfold eraseNodeById
      by_cases h : (m.id == nid) = true
      · rw [if_pos h]
        exact List.sublist_cons_self m ms
      · rw [if_neg h]
        exact List.Sublist.cons₂ m ih

/-- A node with a different id survives `eraseNodeById`. -/
theorem mem_eraseNodeById_of_ne (nid : String) (l : List Node) {n : Node}
    (hn : n ∈ l) (hne : n.id ≠ nid) : n ∈ eraseNodeById nid l := by
  induction l with
  | nil => cases hn
  | cons m ms ih =>
      unfold eraseNodeById
      rcases List.mem_cons.mp hn with rfl | hn'
      · rw [if_neg (by simp [hne])]
        exact List.mem_cons_self _ _
      · by_cases h : (m.id == nid) = true
        · rw [if_pos h]
          exact hn'
        · rw [if_neg h]
          exact List.mem_cons_of_mem m (ih hn')

/-- The global list of `Connector.delete` only shrinks. -/
theorem deleteC_connectors_sublist (fc : Flowchart) (c : Connector) :
    List.Sublist (Connector.deleteC fc c).connectors fc.connectors := by
  unfold Connector.deleteC
  dsimp only []
  by_cases h : (fc.connectors.any (fun x => x.ref == c.ref)) = true
  · rw [if_pos h]
    exact eraseRef_sublist c.ref fc.connectors
  · rw [if_neg h]

/-- With distinct tags, the deleted connector's tag vanishes from the
global list. -/
theorem deleteC_connectors_spec (fc : Flowchart) (c : Connector)
    (hnd : (fc.connectors.map (fun x => x.ref)).Nodup) :
    ∀ x ∈ (Connector.deleteC fc c).connectors, x ∈ fc.connectors ∧ x.ref ≠ c.ref := by
  intro x hx
  unfold Connector.deleteC at hx
  dsimp only [] at hx
  by_cases h : (fc.connectors.any (fun y => y.ref == c.ref)) = true
  · rw [if_pos h] at hx
    exact ⟨mem_of_eraseRef hx, eraseRef_no_ref c.ref fc.connectors hnd x hx⟩
  · rw [if_neg h] at hx
    refine ⟨hx, fun hxr => ?_⟩
    exact h (List.any_eq_true.mpr ⟨x, hx, by simp [hxr]⟩)

/-- `Connector.delete` on one node entry: id kept, lists only shrink,
and connectors with a different tag survive. -/
theorem deleteCNodeF_spec (c : Connector) (n : Node) :
    (deleteCNodeF c n).id = n.id ∧
    List.Sublist (deleteCNodeF c n).input_connectors n.input_connectors ∧
    List.Sublist (deleteCNodeF c n).output_connectors n.output_connectors ∧
    (∀ x ∈ n.input_connectors, x.ref ≠ c.ref → x ∈ (deleteCNodeF c n).input_connectors) ∧
    (∀ x ∈ n.output_connectors, x.ref ≠ c.ref → x ∈ (deleteCNodeF c n).output_connectors) := by
  unfold deleteCNodeF
  dsimp only []
  by_cases h1 : (n.id == c.node1) = true
  · rw [if_pos h1]
    by_cases h2 : (n.id == c.node2) = true
    · rw [if_pos h2]
      exact ⟨rfl, eraseRef_sublist _ _, eraseRef_sublist _ _,
        fun x hx hne => mem_eraseRef_of_ne _ _ hx hne,
        fun x hx hne => mem_eraseRef_of_ne _ _ hx hne⟩
    · rw [if_neg h2]
      exact ⟨rfl, List.Sublist.refl _, eraseRef_sublist _ _,
        fun x hx _ => hx, fun x hx hne => mem_eraseRef_of_ne _ _ hx hne⟩
  · rw [if_neg h1]
    by_cases h2 : (n.id == c.node2) = true
    · rw [if_pos h2]
      exact ⟨rfl, eraseRef_sublist _ _, List.Sublist.refl _,
        fun x hx hne => mem_eraseRef_of_ne _ _ hx hne, fun x hx _ => hx⟩
    · rw [if_neg h2]
      exact ⟨rfl, List.Sublist.refl _, List.Sublist.refl _,
        fun x hx _ => hx, fun x hx _ => hx⟩

/-- The explicit host-list removals: id kept, lists only shrink, other
tags survive. -/
theorem hostEraseF_spec (hostId : String) (r : Nat) (m : Node) :
    (hostEraseF hostId r m).id = m.id ∧
    List.Sublist (hostEraseF hostId r m).input_connectors m.input_connectors ∧
    List.Sublist (hostEraseF hostId r m).output_connectors m.output_connectors ∧
    (∀ x ∈ m.input_connectors, x.ref ≠ r → x ∈ (hostEraseF hostId r m).input_connectors) ∧
    (∀ x ∈ m.output_connectors, x.ref ≠ r → x ∈ (hostEraseF hostId r m).output_connectors) := by
  unfold hostEraseF
  by_cases h : (m.id == hostId) = true
  · rw [if_pos h]
    exact ⟨rfl, eraseRef_sublist _ _, eraseRef_sublist _ _,
      fun x hx hne => mem_eraseRef_of_ne _ _ hx hne,
      fun x hx hne => mem_eraseRef_of_ne _ _ hx hne⟩
  · rw [if_neg h]
    exact ⟨rfl, List.Sublist.refl _, List.Sublist.refl _,
      fun x hx _ => hx, fun x hx _ => hx⟩

/-- On the host node itself, the explicit removals leave no connector
with the erased tag (tags within each list distinct). -/
theorem hostEraseF_no_ref (hostId : String) (r : Nat) (m : Node)
    (hmid : (m.id == hostId) = true)
    (hndin : (m.input_connectors.map (fun c => c.ref)).Nodup)
    (hndout : (m.output_connectors.map (fun c => c.ref)).Nodup) :
    (∀ x ∈ (hostEraseF hostId r m).input_connectors, x.ref ≠ r) ∧
    (∀ x ∈ (hostEraseF hostId r m).output_connectors, x.ref ≠ r) := by
  unfold hostEraseF
  rw [if_pos hmid]
  exact ⟨eraseRef_no_ref r _ hndin, eraseRef_no_ref r _ hndout⟩

/-- `hostStep` only shrinks the global list. -/
theorem hostStep_connectors_sublist (nid hostId : String) (g : Flowchart) (c : Connector) :
    List.Sublist (hostStep nid hostId g c).connectors g.connectors := by
  unfold hostStep
  by_cases h : connTouches nid c = true
  · rw [if_pos h]
    exact deleteC_connectors_sublist g c
  · rw [if_neg h]

/-- A global survivor of a touching `hostStep` kept a different tag. -/
theorem hostStep_kill (nid hostId : String) (g : Flowchart) (c : Connector)
    (hnd : (g.connectors.map (fun x => x.ref)).Nodup)
    (htouch : connTouches nid c = true) :
    ∀ x ∈ (hostStep nid hostId g c).connectors, x ∈ g.connectors ∧ x.ref ≠ c.ref := by
  unfold hostStep
  rw [if_pos htouch]
  intro x hx
  exact deleteC_connectors_spec g c hnd x hx

/-- Node transport through one `hostStep`: the looked-up node persists,
its lists only shrink, and connectors with a tag different from the
processed one survive in place. -/
theorem hostStep_node (nid hostId : String) (g : Flowchart) (c : Connector)
    (mid : String) (m2 : Node) (hfind : findNode g mid = some m2) :
    ∃ m3, findNode (hostStep nid hostId g c) mid = some m3 ∧
      List.Sublist m3.input_connectors m2.input_connectors ∧
      List.Sublist m3.output_connectors m2.output_connectors ∧
      (∀ x, (connTouches nid c = true → x.ref ≠ c.ref) →
        (x ∈ m2.input_connectors → x ∈ m3.input_connectors) ∧
        (x ∈ m2.output_connectors → x ∈ m3.output_connectors)) := by
  unfold hostStep
  by_cases h : connTouches nid c = true
  · rw [if_pos h]
    refine ⟨hostEraseF hostId c.ref (deleteCNodeF c m2), ?_, ?_, ?_, ?_⟩
    · show ((g.nodes.map (deleteCNodeF c)).map (hostEraseF hostId c.ref)).find?
        (fun n => n.id == mid) = _
      rw [find?_id_map _ _ (fun n => (hostEraseF_spec hostId c.ref n).1),
          find?_id_map _ _ (fun n => (deleteCNodeF_spec c n).1)]
      rw [show List.find? (fun n => n.id == mid) g.nodes = some m2 from hfind]
      rfl
    · exact ((hostEraseF_spec _ _ _).2.1).trans ((deleteCNodeF_spec _ _).2.1)
    · exact ((hostEraseF_spec _ _ _).2.2.1).trans ((deleteCNodeF_spec _ _).2.2.1)
    · intro x hner0
      have hner := hner0 h
      exact ⟨fun hx => (hostEraseF_spec _ _ _).2.2.2.1 x
          ((deleteCNodeF_spec _ _).2.2.2.1 x hx hner) hner,
        fun hx => (hostEraseF_spec _ _ _).2.2.2.2 x
          ((deleteCNodeF_spec _ _).2.2.2.2 x hx hner) hner⟩
  · rw [if_neg h]
    exact ⟨m2, hfind, List.Sublist.refl _, List.Sublist.refl _,
      fun x _ => ⟨fun hx => hx, fun hx => hx⟩⟩

/-- Tag distinctness descends along sublists. -/
theorem refs_nodup_of_sublist {l l' : List Connector} (h : List.Sublist l' l)
    (hnd : (l.map (fun c => c.ref)).Nodup) : (l'.map (fun c => c.ref)).Nodup :=
  (h.map _).nodup hnd

/-- The inner fold of a host turn only shrinks the global list. -/
theorem hostFold_connectors_sublist (nid hostId : String) :
    ∀ (cs : List Connector) (g : Flowchart),
      List.Sublist (cs.foldl (hostStep nid hostId) g).connectors g.connectors := by
  intro cs
  induction cs with
  | nil => intro g; exact List.Sublist.refl _
  | cons c cs ih =>
      intro g
      exact (ih (hostStep nid hostId g c)).trans (hostStep_connectors_sublist nid hostId g c)

/-- Every touching connector of the host's snapshot is gone from the
global list after the turn. -/
theorem hostFold_kill (nid hostId : String) :
    ∀ (cs : List Connector) (g : Flowchart),
      (g.connectors.map (fun x => x.ref)).Nodup →
      ∀ x ∈ cs, connTouches nid x = true →
        x ∉ (cs.foldl (hostStep nid hostId) g).connectors := by
  intro cs
  induction cs with
  | nil => intro g _ x hx; cases hx
  | cons c cs ih =>
      intro g hnd x hx htouch hxin
      rcases List.mem_cons.mp hx with rfl | hx'
      · have hsub := hostFold_connectors_sublist nid hostId cs (hostStep nid hostId g x)
        have hx2 : x ∈ (hostStep nid hostId g x).connectors := hsub.subset hxin
        exact (hostStep_kill nid hostId g x hnd htouch x hx2).2 rfl
      · exact ih (hostStep nid hostId g c)
          (refs_nodup_of_sublist (hostStep_connectors_sublist nid hostId g c) hnd)
          x hx' htouch hxin

/-- Any looked-up node persists through a host turn with only-shrinking
lists. -/
theorem hostFold_node_sublist (nid hostId : String) :
    ∀ (cs : List Connector) (g : Flowchart) (mid : String) (m2 : Node),
      findNode g mid = some m2 →
      ∃ m3, findNode (cs.foldl (hostStep nid hostId) g) mid = some m3 ∧
        List.Sublist m3.input_connectors m2.input_connectors ∧
        List.Sublist m3.output_connectors m2.output_connectors := by
  intro cs
  induction cs with
  | nil => intro g mid m2 hf; exact ⟨m2, hf, List.Sublist.refl _, List.Sublist.refl _⟩
  | cons c cs ih =>
      intro g mid m2 hf
      obtain ⟨mm, hmm, hs1, hs2, -⟩ := hostStep_node nid hostId g c mid m2 hf
      obtain ⟨m3, hm3, hs3, hs4⟩ := ih (hostStep nid hostId g c) mid mm hmm
      exact ⟨m3, hm3, hs3.trans hs1, hs4.trans hs2⟩

/-- A connector that survives the host turn in the global list also
survives, in place, in any node's lists that held it. -/
theorem hostFold_preserve (nid hostId : String) :
    ∀ (cs : List Connector) (g : Flowchart) (mid : String) (m2 : Node) (x : Connector),
      (g.connectors.map (fun y => y.ref)).Nodup →
      findNode g mid = some m2 →
      (x ∈ m2.input_connectors ∨ x ∈ m2.output_connectors) →
      x ∈ (cs.foldl (hostStep nid hostId) g).connectors →
      ∃ m3, findNode (cs.foldl (hostStep nid hostId) g) mid = some m3 ∧
        (x ∈ m3.input_connectors ∨ x ∈ m3.output_connectors) := by
  intro cs
  induction cs with
  | nil => intro g mid m2 x _ hf hmem _; exact ⟨m2, hf, hmem⟩
  | cons c cs ih =>
      intro g mid m2 x hnd hf hmem hxin
      have hsub := hostFold_connectors_sublist nid hostId cs (hostStep nid hostId g c)
      have hx1 : x ∈ (hostStep nid hostId g c).connectors := hsub.subset hxin
      have hner : connTouches nid c = true → x.ref ≠ c.ref := fun ht =>
        (hostStep_kill nid hostId g c hnd ht x hx1).2
      obtain ⟨mm, hmm, -, -, hsurv⟩ := hostStep_node nid hostId g c mid m2 hf
      have hmem2 : x ∈ mm.input_connectors ∨ x ∈ mm.output_connectors := by
        rcases hmem with hmi | hmo
        · exact Or.inl ((hsurv x hner).1 hmi)
        · exact Or.inr ((hsurv x hner).2 hmo)
      exact ih (hostStep nid hostId g c) mid mm x
        (refs_nodup_of_sublist (hostStep_connectors_sublist nid hostId g c) hnd)
        hmm hmem2 hxin

/-- After its own turn, the host's lists are free of the tag of every
touching connector of its snapshot. -/
theorem hostFold_clean (nid hostId : String) :
    ∀ (cs : List Connector) (g : Flowchart) (n2 : Node),
      (g.connectors.map (fun y => y.ref)).Nodup →
      findNode g hostId = some n2 →
      (n2.input_connectors.map (fun y => y.ref)).Nodup →
      (n2.output_connectors.map (fun y => y.ref)).Nodup →
      ∀ x ∈ cs, connTouches nid x = true →
        ∀ m3, findNode (cs.foldl (hostStep nid hostId) g) hostId = some m3 →
          (∀ y ∈ m3.input_connectors, y.ref ≠ x.ref) ∧
          (∀ y ∈ m3.output_connectors, y.ref ≠ x.ref) := by
  intro cs
  induction cs with
  | nil => intro g n2 _ _ _ _ x hx; cases hx
  | cons c cs ih =>
      intro g n2 hnd hfn hndin hndout x hx htouch m3 hm3
      rcases List.mem_cons.mp hx with rfl | hx'
      · have hbeq : (n2.id == hostId) = true := by simpa using List.find?_some hfn
        have hstep : findNode (hostStep nid hostId g x) hostId =
            some (hostEraseF hostId x.ref (deleteCNodeF x n2)) := by
          unfold hostStep
          rw [if_pos htouch]
          show ((g.nodes.map (deleteCNodeF x)).map (hostEraseF hostId x.ref)).find?
            (fun n => n.id == hostId) = _
          rw [find?_id_map _ _ (fun n => (hostEraseF_spec hostId x.ref n).1),
              find?_id_map _ _ (fun n => (deleteCNodeF_spec x n).1)]
          rw [show List.find? (fun n => n.id == hostId) g.nodes = some n2 from hfn]
          rfl
        have hdid : ((deleteCNodeF x n2).id == hostId) = true := by
          rw [show (deleteCNodeF x n2).id = n2.id from (deleteCNodeF_spec x n2).1]
          exact hbeq
        have hnd1 : ((deleteCNodeF x n2).input_connectors.map (fun y => y.ref)).Nodup :=
          refs_nodup_of_sublist (deleteCNodeF_spec x n2).2.1 hndin
        have hnd2 : ((deleteCNodeF x n2).output_connectors.map (fun y => y.ref)).Nodup :=
          refs_nodup_of_sublist (deleteCNodeF_spec x n2).2.2.1 hndout
        have hclean := hostEraseF_no_ref hostId x.ref (deleteCNodeF x n2) hdid hnd1 hnd2
        obtain ⟨m3', hm3', hs1, hs2⟩ :=
          hostFold_node_sublist nid hostId cs (hostStep nid hostId g x) hostId _ hstep
        have hmeq : m3 = m3' := Option.some.inj (hm3.symm.trans hm3')
        subst hmeq
        exact ⟨fun y hy => hclean.1 y (hs1.subset hy),
          fun y hy => hclean.2 y (hs2.subset hy)⟩
      · obtain ⟨mm, hmm, hsin, hsout, -⟩ := hostStep_node nid hostId g c hostId n2 hfn
        exact ih (hostStep nid hostId g c) mm
          (refs_nodup_of_sublist (hostStep_connectors_sublist nid hostId g c) hnd)
          hmm (refs_nodup_of_sublist hsin hndin) (refs_nodup_of_sublist hsout hndout)
          x hx' htouch m3 hm3

/-- `removeNodeHost` only shrinks the global list. -/
theorem removeNodeHost_connectors_sublist (nid : String) (g : Flowchart) (h : String) :
    List.Sublist (removeNodeHost nid g h).connectors g.connectors := by
  unfold removeNodeHost
  cases hfn : findNode g h with
  | none => exact List.Sublist.refl _
  | some n => exact hostFold_connectors_sublist nid h _ g

/-- Node transport through one host turn. -/
theorem removeNodeHost_node_sublist (nid : String) (g : Flowchart) (h mid : String)
    (m2 : Node) (hf : findNode g mid = some m2) :
    ∃ m3, findNode (removeNodeHost nid g h) mid = some m3 ∧
      List.Sublist m3.input_connectors m2.input_connectors ∧
      List.Sublist m3.output_connectors m2.output_connectors := by
  unfold removeNodeHost
  cases hfn : findNode g h with
  | none => exact ⟨m2, hf, List.Sublist.refl _, List.Sublist.refl _⟩
  | some n => exact hostFold_node_sublist nid h _ g mid m2 hf

/-- Id sequence through an id-preserving rewrite of a node list. -/
theorem map_ids_of_idpres (l : List Node) (f : Node → Node) (hf : ∀ n, (f n).id = n.id) :
    ((l.map f).map (fun n => n.id)) = l.map (fun n => n.id) := by
  rw [List.map_map]
  exact List.map_congr_left (fun m _ => hf m)

/-- `hostStep` preserves the id sequence. -/
theorem hostStep_ids (nid hostId : String) (g : Flowchart) (c : Connector) :
    (hostStep nid hostId g c).nodes.map (fun n => n.id) =
      g.nodes.map (fun n => n.id) := by
  unfold hostStep
  by_cases h : connTouches nid c = true
  · rw [if_pos h]
    show (((g.nodes.map (deleteCNodeF c)).map (hostEraseF hostId c.ref)).map
      (fun n => n.id)) = _
    rw [map_ids_of_idpres _ _ (fun n => (hostEraseF_spec hostId c.ref n).1),
        map_ids_of_idpres _ _ (fun n => (deleteCNodeF_spec c n).1)]
  · rw [if_neg h]

/-- The inner fold preserves the id sequence. -/
theorem hostFold_ids (nid hostId : String) :
    ∀ (cs : List Connector) (g : Flowchart),
      ((cs.foldl (hostStep nid hostId) g).nodes.map (fun n => n.id)) =
        g.nodes.map (fun n => n.id) := by
  intro cs
  induction cs with
  | nil => intro g; rfl
  | cons c cs ih =>
      intro g
      exact (ih (hostStep nid hostId g c)).trans (hostStep_ids nid hostId g c)

/-- One host turn preserves the id sequence. -/
theorem removeNodeHost_ids (nid : String) (g : Flowchart) (h : String) :
    ((removeNodeHost nid g h).nodes.map (fun n => n.id)) =
      g.nodes.map (fun n => n.id) := by
  unfold removeNodeHost
  cases hfn : findNode g h with
  | none => rfl
  | some n => exact hostFold_ids nid h _ g

/-- Every node after a `hostStep` descends from a node before it, with
only-shrinking lists. -/
theorem hostStep_nodes_mem (nid hostId : String) (g : Flowchart) (c : Connector) :
    ∀ m' ∈ (hostStep nid hostId g c).nodes, ∃ m ∈ g.nodes,
      List.Sublist m'.input_connectors m.input_connectors ∧
      List.Sublist m'.output_connectors m.output_connectors := by
  unfold hostStep
  by_cases h : connTouches nid c = true
  · rw [if_pos h]
    intro m' hm'
    obtain ⟨m1, hm1, rfl⟩ := List.mem_map.mp hm'
    obtain ⟨m0, hm0, rfl⟩ := List.mem_map.mp hm1
    exact ⟨m0, hm0,
      ((hostEraseF_spec _ _ _).2.1).trans ((deleteCNodeF_spec _ _).2.1),
      ((hostEraseF_spec _ _ _).2.2.1).trans ((deleteCNodeF_spec _ _).2.2.1)⟩
  · rw [if_neg h]
    intro m' hm'
    exact ⟨m', hm', List.Sublist.refl _, List.Sublist.refl _⟩

/-- Node-membership transport through a host turn's fold. -/
theorem hostFold_nodes_mem (nid hostId : String) :
    ∀ (cs : List Connector) (g : Flowchart),
      ∀ m' ∈ (cs.foldl (hostStep nid hostId) g).nodes, ∃ m ∈ g.nodes,
        List.Sublist m'.input_connectors m.input_connectors ∧
        List.Sublist m'.output_connectors m.output_connectors := by
  intro cs
  induction cs with
  | nil => intro g m' hm'; exact ⟨m', hm', List.Sublist.refl _, List.Sublist.refl _⟩
  | cons c cs ih =>
      intro g m' hm'
      obtain ⟨m1, hm1, hs1, hs2⟩ := ih (hostStep nid hostId g c) m' hm'
      obtain ⟨m0, hm0, hs3, hs4⟩ := hostStep_nodes_mem nid hostId g c m1 hm1
      exact ⟨m0, hm0, hs1.trans hs3, hs2.trans hs4⟩

/-- Node-membership transport through one host turn. -/
theorem removeNodeHost_nodes_mem (nid : String) (g : Flowchart) (h : String) :
    ∀ m' ∈ (removeNodeHost nid g h).nodes, ∃ m ∈ g.nodes,
      List.Sublist m'.input_connectors m.input_connectors ∧
      List.Sublist m'.output_connectors m.output_connectors := by
  unfold removeNodeHost
  cases hfn : findNode g h with
  | none => intro m' hm'; exact ⟨m', hm', List.Sublist.refl _, List.Sublist.refl _⟩
  | some n => exact hostFold_nodes_mem nid h _ g

/-- The first cleanup loop of `remove_node` only shrinks the global
list. -/
theorem phaseFold_connectors_sublist (nid : String) :
    ∀ (hs : List String) (g : Flowchart),
      List.Sublist (hs.foldl (removeNodeHost nid) g).connectors g.connectors := by
  intro hs
  induction hs with
  | nil => intro g; exact List.Sublist.refl _
  | cons h hs ih =>
      intro g
      exact (ih (removeNodeHost nid g h)).trans (removeNodeHost_connectors_sublist nid g h)

/-- Node transport through the first cleanup loop. -/
theorem phaseFold_node_sublist (nid : String) :
    ∀ (hs : List String) (g : Flowchart) (mid : String) (m2 : Node),
      findNode g mid = some m2 →
      ∃ m3, findNode (hs.foldl (removeNodeHost nid) g) mid = some m3 ∧
        List.Sublist m3.input_connectors m2.input_connectors ∧
        List.Sublist m3.output_connectors m2.output_connectors := by
  intro hs
  induction hs with
  | nil => intro g mid m2 hf; exact ⟨m2, hf, List.Sublist.refl _, List.Sublist.refl _⟩
  | cons h hs ih =>
      intro g mid m2 hf
      obtain ⟨mm, hmm, hs1, hs2⟩ := removeNodeHost_node_sublist nid g h mid m2 hf
      obtain ⟨m3, hm3, hs3, hs4⟩ := ih (removeNodeHost nid g h) mid mm hmm
      exact ⟨m3, hm3, hs3.trans hs1, hs4.trans hs2⟩

/-- Node-membership transport through the first cleanup loop. -/
theorem phaseFold_nodes_mem (nid : String) :
    ∀ (hs : List String) (g : Flowchart),
      ∀ m' ∈ (hs.foldl (removeNodeHost nid) g).nodes, ∃ m ∈ g.nodes,
        List.Sublist m'.input_connectors m.input_connectors ∧
        List.Sublist m'.output_connectors m.output_connectors := by
  intro hs
  induction hs with
  | nil => intro g m' hm'; exact ⟨m', hm', List.Sublist.refl _, List.Sublist.refl _⟩
  | cons h hs ih =>
      intro g m' hm'
      obtain ⟨m1, hm1, hs1, hs2⟩ := ih (removeNodeHost nid g h) m' hm'
      obtain ⟨m0, hm0, hs3, hs4⟩ := removeNodeHost_nodes_mem nid g h m1 hm1
      exact ⟨m0, hm0, hs1.trans hs3, hs2.trans hs4⟩

/-- The first cleanup loop preserves the id sequence. -/
theorem phaseFold_ids (nid : String) :
    ∀ (hs : List String) (g : Flowchart),
      ((hs.foldl (removeNodeHost nid) g).nodes.map (fun n => n.id)) =
        g.nodes.map (fun n => n.id) := by
  intro hs
  induction hs with
  | nil => intro g; rfl
  | cons h hs ih =>
      intro g
      exact (ih (removeNodeHost nid g h)).trans (removeNodeHost_ids nid g h)

/-- After the first cleanup loop, the global list holds no touching
connector, provided every touching connector initially sits in the
lists of a node whose id is among the hosts. -/
theorem phaseFold_no_touching (nid : String) :
    ∀ (hs : List String) (g : Flowchart),
      (g.connectors.map (fun y => y.ref)).Nodup →
      (∀ x ∈ g.connectors, connTouches nid x = true →
        ∃ mid ∈ hs, ∃ m, findNode g mid = some m ∧
          (x ∈ m.input_connectors ∨ x ∈ m.output_connectors)) →
      ∀ x ∈ (hs.foldl (removeNodeHost nid) g).connectors, connTouches nid x = false := by
  intro hs
  induction hs with
  | nil =>
      intro g _ hcov x hx
      cases hct : connTouches nid x
      · rfl
      · obtain ⟨mid, hmid, -⟩ := hcov x hx hct
        cases hmid
  | cons h hs ih =>
      intro g hnd hcov x hx
      have hcov' : ∀ y ∈ (removeNodeHost nid g h).connectors, connTouches nid y = true →
          ∃ mid ∈ hs, ∃ m', findNode (removeNodeHost nid g h) mid = some m' ∧
            (y ∈ m'.input_connectors ∨ y ∈ m'.output_connectors) := by
        intro y hy hyt
        have hyg : y ∈ g.connectors := (removeNodeHost_connectors_sublist nid g h).subset hy
        obtain ⟨mid0, hmid0, m, hfm, hmem⟩ := hcov y hyg hyt
        rcases List.mem_cons.mp hmid0 with rfl | hmid0'
        · exfalso
          have hgeq : removeNodeHost nid g mid0 =
              (m.input_connectors ++ m.output_connectors).foldl (hostStep nid mid0) g := by
            unfold removeNodeHost
            rw [hfm]
          have hkill := hostFold_kill nid mid0
            (m.input_connectors ++ m.output_connectors) g hnd y
            (List.mem_append.mpr hmem) hyt
          rw [hgeq] at hy
          exact hkill hy
        · cases hfn : findNode g h with
          | none =>
              have hgeq : removeNodeHost nid g h = g := by
                unfold removeNodeHost
                rw [hfn]
              refine ⟨mid0, hmid0', m, ?_, hmem⟩
              rw [hgeq]
              exact hfm
          | some n =>
              have hgeq : removeNodeHost nid g h =
                  (n.input_connectors ++ n.output_connectors).foldl (hostStep nid h) g := by
                unfold removeNodeHost
                rw [hfn]
              rw [hgeq] at hy
              obtain ⟨m3, hm3, hmem3⟩ := hostFold_preserve nid h
                (n.input_connectors ++ n.output_connectors) g mid0 m y hnd hfm hmem hy
              refine ⟨mid0, hmid0', m3, ?_, hmem3⟩
              rw [hgeq]
              exact hm3
      exact ih (removeNodeHost nid g h)
        (refs_nodup_of_sublist (removeNodeHost_connectors_sublist nid g h) hnd)
        hcov' x hx

/-- After the first cleanup loop, the lists of every node whose id is
among the hosts hold no touching connector. -/
theorem phaseFold_clean (nid : String) :
    ∀ (hs : List String) (g : Flowchart),
      (g.connectors.map (fun y => y.ref)).Nodup →
      (∀ n ∈ g.nodes, (n.input_connectors.map (fun y => y.ref)).Nodup ∧
        (n.output_connectors.map (fun y => y.ref)).Nodup) →
      ∀ mid ∈ hs, ∀ m3, findNode (hs.foldl (removeNodeHost nid) g) mid = some m3 →
        (∀ y ∈ m3.input_connectors, connTouches nid y = false) ∧
        (∀ y ∈ m3.output_connectors, connTouches nid y = false) := by
  intro hs
  induction hs with
  | nil => intro g _ _ mid hmid; cases hmid
  | cons h hs ih =>
      intro g hnd hlists mid hmid m3 hm3
      rcases List.mem_cons.mp hmid with rfl | hmid'
      · cases hfn : findNode g mid with
        | none =>
            exfalso
            have hids : ((hs.foldl (removeNodeHost nid) (removeNodeHost nid g mid)).nodes.map
                (fun n => n.id)) = g.nodes.map (fun n => n.id) :=
              (phaseFold_ids nid hs _).trans (removeNodeHost_ids nid g mid)
            have hmem := List.mem_of_find?_eq_some hm3
            have hpred := List.find?_some hm3
            have hidm : m3.id ∈ g.nodes.map (fun n => n.id) := by
              rw [← hids]
              exact List.mem_map_of_mem _ hmem
            obtain ⟨n0, hn0, hn0id⟩ := List.mem_map.mp hidm
            unfold findNode at hfn
            rw [List.find?_eq_none] at hfn
            exact hfn n0 hn0 (by rw [hn0id]; simpa using hpred)
        | some n2 =>
            have hgeq : removeNodeHost nid g mid =
                (n2.input_connectors ++ n2.output_connectors).foldl (hostStep nid mid) g := by
              unfold removeNodeHost
              rw [hfn]
            obtain ⟨m', hm', hs1, hs2⟩ := hostFold_node_sublist nid mid
              (n2.input_connectors ++ n2.output_connectors) g mid n2 hfn
            obtain ⟨m3', hm3', hs3, hs4⟩ := phaseFold_node_sublist nid hs
              (removeNodeHost nid g mid) mid m' (by rw [hgeq]; exact hm')
            have hmeq : m3 = m3' := Option.some.inj (hm3.symm.trans hm3')
            subst hmeq
            have hndin := (hlists n2 (List.mem_of_find?_eq_some hfn)).1
            have hndout := (hlists n2 (List.mem_of_find?_eq_some hfn)).2
            constructor
            · intro y hy
              cases hyt : connTouches nid y
              · rfl
              · exfalso
                have hy' : y ∈ m'.input_connectors := hs3.subset hy
                have hysnap : y ∈ n2.input_connectors ++ n2.output_connectors :=
                  List.mem_append.mpr (Or.inl (hs1.subset hy'))
                have hcl := hostFold_clean nid mid
                  (n2.input_connectors ++ n2.output_connectors) g n2 hnd hfn hndin hndout
                  y hysnap hyt m' hm'
                exact hcl.1 y hy' rfl
            · intro y hy
              cases hyt : connTouches nid y
              · rfl
              · exfalso
                have hy' : y ∈ m'.output_connectors := hs4.subset hy
                have hysnap : y ∈ n2.input_connectors ++ n2.output_connectors :=
                  List.mem_append.mpr (Or.inr (hs2.subset hy'))
                have hcl := hostFold_clean nid mid
                  (n2.input_connectors ++ n2.output_connectors) g n2 hnd hfn hndin hndout
                  y hysnap hyt m' hm'
                exact hcl.2 y hy' rfl
      · exact ih (removeNodeHost nid g h)
          (refs_nodup_of_sublist (removeNodeHost_connectors_sublist nid g h) hnd)
          (fun n' hn' => by
            obtain ⟨m0, hm0, hsl1, hsl2⟩ := removeNodeHost_nodes_mem nid g h n' hn'
            exact ⟨refs_nodup_of_sublist hsl1 (hlists m0 hm0).1,
              refs_nodup_of_sublist hsl2 (hlists m0 hm0).2⟩)
          mid hmid' m3 hm3

/-- `Connector.delete` rewrites a looked-up node pointwise. -/
theorem deleteC_node_transport (g : Flowchart) (c : Connector) (mid : String) (m2 : Node)
    (hf : findNode g mid = some m2) :
    findNode (Connector.deleteC g c) mid = some (deleteCNodeF c m2) := by
  show (g.nodes.map (deleteCNodeF c)).find? (fun n => n.id == mid) = _
  rw [find?_id_map _ _ (fun n => (deleteCNodeF_spec c n).1)]
  rw [show List.find? (fun n => n.id == mid) g.nodes = some m2 from hf]
  rfl

/-- The final sweep only shrinks the global list. -/
theorem connectorSweep_connectors_sublist (nid : String) :
    ∀ (fuel : Nat) (g : Flowchart) (i : Nat),
      List.Sublist (connectorSweep nid fuel g i).connectors g.connectors := by
  intro fuel
  induction fuel with
  | zero => intro g i; exact List.Sublist.refl _
  | succ fuel ih =>
      intro g i
      unfold connectorSweep
      by_cases h : i < g.connectors.length
      · rw [dif_pos h]
        dsimp only []
        by_cases ht : connTouches nid (g.connectors.get ⟨i, h⟩) = true
        · rw [if_pos ht]
          exact (ih _ _).trans (deleteC_connectors_sublist g _)
        · rw [if_neg ht]
          exact ih g (i + 1)
      · rw [dif_neg h]

/-- Node transport through the final sweep. -/
theorem connectorSweep_node_sublist (nid : String) :
    ∀ (fuel : Nat) (g : Flowchart) (i : Nat) (mid : String) (m2 : Node),
      findNode g mid = some m2 →
      ∃ m3, findNode (connectorSweep nid fuel g i) mid = some m3 ∧
        List.Sublist m3.input_connectors m2.input_connectors ∧
        List.Sublist m3.output_connectors m2.output_connectors := by
  intro fuel
  induction fuel with
  | zero => intro g i mid m2 hf; exact ⟨m2, hf, List.Sublist.refl _, List.Sublist.refl _⟩
  | succ fuel ih =>
      intro g i mid m2 hf
      unfold connectorSweep
      by_cases h : i < g.connectors.length
      · rw [dif_pos h]
        dsimp only []
        by_cases ht : connTouches nid (g.connectors.get ⟨i, h⟩) = true
        · rw [if_pos ht]
          obtain ⟨m3, hm3, hs1, hs2⟩ := ih (Connector.deleteC g (g.connectors.get ⟨i, h⟩))
            (i + 1) mid (deleteCNodeF (g.connectors.get ⟨i, h⟩) m2)
            (deleteC_node_transport g _ mid m2 hf)
          exact ⟨m3, hm3,
            hs1.trans (deleteCNodeF_spec _ _).2.1,
            hs2.trans (deleteCNodeF_spec _ _).2.2.1⟩
        · rw [if_neg ht]
          exact ih g (i + 1) mid m2 hf
      · rw [dif_neg h]
        exact ⟨m2, hf, List.Sublist.refl _, List.Sublist.refl _⟩

/-- Node-membership transport through the final sweep. -/
theorem connectorSweep_nodes_mem (nid : String) :
    ∀ (fuel : Nat) (g : Flowchart) (i : Nat),
      ∀ m' ∈ (connectorSweep nid fuel g i).nodes, ∃ m ∈ g.nodes,
        List.Sublist m'.input_connectors m.input_connectors ∧
        List.Sublist m'.output_connectors m.output_connectors := by
  intro fuel
  induction fuel with
  | zero => intro g i m' hm'; exact ⟨m', hm', List.Sublist.refl _, List.Sublist.refl _⟩
  | succ fuel ih =>
      intro g i m' hm'
      unfold connectorSweep at hm'
      by_cases h : i < g.connectors.length
      · rw [dif_pos h] at hm'
        dsimp only [] at hm'
        by_cases ht : connTouches nid (g.connectors.get ⟨i, h⟩) = true
        · rw [if_pos ht] at hm'
          obtain ⟨m1, hm1, hs1, hs2⟩ :=
            ih (Connector.deleteC g (g.connectors.get ⟨i, h⟩)) (i + 1) m' hm'
          obtain ⟨m0, hm0, rfl⟩ := List.mem_map.mp hm1
          exact ⟨m0, hm0,
            hs1.trans (deleteCNodeF_spec _ _).2.1,
            hs2.trans (deleteCNodeF_spec _ _).2.2.1⟩
        · rw [if_neg ht] at hm'
          exact ih g (i + 1) m' hm'
      · rw [dif_neg h] at hm'
        exact ⟨m', hm', List.Sublist.refl _, List.Sublist.refl _⟩

/-- The final sweep preserves the id sequence. -/
theorem connectorSweep_ids (nid : String) :
    ∀ (fuel : Nat) (g : Flowchart) (i : Nat),
      ((connectorSweep nid fuel g i).nodes.map (fun n => n.id)) =
        g.nodes.map (fun n => n.id) := by
  intro fuel
  induction fuel with
  | zero => intro g i; rfl
  | succ fuel ih =>
      intro g i
      unfold connectorSweep
      by_cases h : i < g.connectors.length
      · rw [dif_pos h]
        dsimp only []
        by_cases ht : connTouches nid (g.connectors.get ⟨i, h⟩) = true
        · rw [if_pos ht]
          refine (ih _ _).trans ?_
          exact map_ids_of_idpres _ _ (fun n => (deleteCNodeF_spec _ n).1)
        · rw [if_neg ht]
          exact ih g (i + 1)
      · rw [dif_neg h]

/-- C8 amended: on every chart with consistent bookkeeping — distinct
node ids, distinct connector identities (globally and within each
node's lists), every global connector recorded in its endpoints' lists,
endpoints existing in the node set — and in which the removed node
carries no self-loop, `remove_node` is complete: the node leaves the
node set, and no connector touching it remains in the global collection
or in any remaining node's input or output lists.  (The counterexample
shows the no-self-loop proviso is forced: with two self-loops, the
final sweep skips one of them.) -/
theorem claim_C8_remove_node_complete
    (fc : Flowchart) (node : Node)
    (hids : (fc.nodes.map (fun n => n.id)).Nodup)
    (hrefs : (fc.connectors.map (fun c => c.ref)).Nodup)
    (hlists : ∀ n ∈ fc.nodes, (n.input_connectors.map (fun c => c.ref)).Nodup ∧
      (n.output_connectors.map (fun c => c.ref)).Nodup)
    (hglobin : ∀ c ∈ fc.connectors, ∀ n ∈ fc.nodes, c.node2 = n.id → c ∈ n.input_connectors)
    (hglobout : ∀ c ∈ fc.connectors, ∀ n ∈ fc.nodes, c.node1 = n.id → c ∈ n.output_connectors)
    (hends : ∀ c ∈ fc.connectors,
      (∃ n ∈ fc.nodes, n.id = c.node1) ∧ (∃ n ∈ fc.nodes, n.id = c.node2))
    (hnoself : ∀ c ∈ fc.connectors, ¬(c.node1 = node.id ∧ c.node2 = node.id)) :
    (∀ n ∈ (fc.remove_node node).nodes, n.id ≠ node.id) ∧
    (∀ c ∈ (fc.remove_node node).connectors, connTouches node.id c = false) ∧
    (∀ n ∈ (fc.remove_node node).nodes,
      ∀ c ∈ n.input_connectors ++ n.output_connectors,
        connTouches node.id c = false) := by
  have hids1 : ((removeStage1 node.id fc).nodes.map (fun n => n.id)).Nodup :=
    ((eraseNodeById_sublist node.id fc.nodes).map _).nodup hids
  have hrefs1 : ((removeStage1 node.id fc).connectors.map (fun c => c.ref)).Nodup := hrefs
  have hmem1 : ∀ n ∈ (removeStage1 node.id fc).nodes, n ∈ fc.nodes :=
    fun n hn => (eraseNodeById_sublist node.id fc.nodes).subset hn
  have hlists1 : ∀ n ∈ (removeStage1 node.id fc).nodes,
      (n.input_connectors.map (fun c => c.ref)).Nodup ∧
      (n.output_connectors.map (fun c => c.ref)).Nodup :=
    fun n hn => hlists n (hmem1 n hn)
  have hcov : ∀ x ∈ (removeStage1 node.id fc).connectors, connTouches node.id x = true →
      ∃ mid ∈ ((removeStage1 node.id fc).nodes.map (fun n => n.id)),
        ∃ m, findNode (removeStage1 node.id fc) mid = some m ∧
          (x ∈ m.input_connectors ∨ x ∈ m.output_connectors) := by
    intro x hx htouch
    have hx' : x ∈ fc.connectors := hx
    unfold connTouches at htouch
    rw [Bool.or_eq_true] at htouch
    rcases htouch with h1 | h2
    · have h1' : x.node1 = node.id := eq_of_beq h1
      have hne2 : x.node2 ≠ node.id := fun h2' => hnoself x hx' ⟨h1', h2'⟩
      obtain ⟨n2, hn2mem, hn2id⟩ := (hends x hx').2
      have hn2ne : n2.id ≠ node.id := by rw [hn2id]; exact hne2
      have hn2in : n2 ∈ (removeStage1 node.id fc).nodes :=
        mem_eraseNodeById_of_ne node.id fc.nodes hn2mem hn2ne
      refine ⟨n2.id, List.mem_map_of_mem _ hn2in, n2, ?_,
        Or.inl (hglobin x hx' n2 hn2mem hn2id.symm)⟩
      exact findNode_self (removeStage1 node.id fc) hids1 hn2in
    · have h2' : x.node2 = node.id := eq_of_beq h2
      have hne1 : x.node1 ≠ node.id := fun h1' => hnoself x hx' ⟨h1', h2'⟩
      obtain ⟨n1, hn1mem, hn1id⟩ := (hends x hx').1
      have hn1ne : n1.id ≠ node.id := by rw [hn1id]; exact hne1
      have hn1in : n1 ∈ (removeStage1 node.id fc).nodes :=
        mem_eraseNodeById_of_ne node.id fc.nodes hn1mem hn1ne
      refine ⟨n1.id, List.mem_map_of_mem _ hn1in, n1, ?_,
        Or.inr (hglobout x hx' n1 hn1mem hn1id.symm)⟩
      exact findNode_self (removeStage1 node.id fc) hids1 hn1in
  have hphase_no_touch :
      ∀ x ∈ (removeStage2 node.id (removeStage1 node.id fc)).connectors,
        connTouches node.id x = false :=
    phaseFold_no_touching node.id _ _ hrefs1 hcov
  have hids2 : ((removeStage2 node.id (removeStage1 node.id fc)).nodes.map (fun n => n.id)) =
      (removeStage1 node.id fc).nodes.map (fun n => n.id) :=
    phaseFold_ids node.id _ _
  have hidseq : ((fc.remove_node node).nodes.map (fun n => n.id)) =
      (removeStage1 node.id fc).nodes.map (fun n => n.id) :=
    (connectorSweep_ids node.id
      ((removeStage2 node.id (removeStage1 node.id fc)).connectors.length + 1)
      (removeStage2 node.id (removeStage1 node.id fc)) 0).trans hids2
  refine ⟨?_, ?_, ?_⟩
  · intro n hn
    have hidm : n.id ∈ (fc.remove_node node).nodes.map (fun n => n.id) :=
      List.mem_map_of_mem _ hn
    rw [hidseq] at hidm
    obtain ⟨n1, hn1, hn1id⟩ := List.mem_map.mp hidm
    have hne := eraseNodeById_no_id node.id fc.nodes hids n1 hn1
    rw [hn1id] at hne
    exact hne
  · intro c hc
    have hc2 : c ∈ (removeStage2 node.id (removeStage1 node.id fc)).connectors :=
      (connectorSweep_connectors_sublist node.id
        ((removeStage2 node.id (removeStage1 node.id fc)).connectors.length + 1)
        (removeStage2 node.id (removeStage1 node.id fc)) 0).subset hc
    exact hphase_no_touch c hc2
  · intro n hn c hcl
    obtain ⟨m, hmP, hsli, hslo⟩ := connectorSweep_nodes_mem node.id
      ((removeStage2 node.id (removeStage1 node.id fc)).connectors.length + 1)
      (removeStage2 node.id (removeStage1 node.id fc)) 0 n hn
    have hmidmem : m.id ∈ (removeStage1 node.id fc).nodes.map (fun n => n.id) := by
      have hm2 : m.id ∈ (removeStage2 node.id (removeStage1 node.id fc)).nodes.map
          (fun n => n.id) := List.mem_map_of_mem _ hmP
      rwa [hids2] at hm2
    have hfP : findNode (removeStage2 node.id (removeStage1 node.id fc)) m.id = some m := by
      apply findNode_self
      · rw [hids2]
        exact hids1
      · exact hmP
    have hclean := phaseFold_clean node.id _ _ hrefs1 hlists1 m.id hmidmem m hfP
    rcases List.mem_append.mp hcl with hci | hco
    · exact hclean.1 c (hsli.subset hci)
    · exact hclean.2 c (hslo.subset hco)

/-- Concrete instance of the amended C8: removing `X` from the chart
`A → X` deletes the node, the connector, and its entry in `A`'s output
list. -/
theorem claim_C8_witness :
    (∀ n ∈ (fcW8.remove_node nodeX8).nodes, n.id ≠ nodeX8.id) ∧
    (∀ c ∈ (fcW8.remove_node nodeX8).connectors, connTouches nodeX8.id c = false) ∧
    (∀ n ∈ (fcW8.remove_node nodeX8).nodes,
      ∀ c ∈ n.input_connectors ++ n.output_connectors,
        connTouches nodeX8.id c = false) :=
  claim_C8_remove_node_complete fcW8 nodeX8 (by decide) (by decide)
    (by
      intro n hn
      rcases List.mem_cons.mp hn with rfl | hn'
      · exact ⟨by decide, by decide⟩
      · rcases List.mem_cons.mp hn' with rfl | hn''
        · exact ⟨by decide, by decide⟩
        · cases hn'')
    (by
      intro c hc n hn h2
      rcases List.mem_cons.mp hc with rfl | hc'
      · rcases List.mem_cons.mp hn with rfl | hn'
        · exact absurd h2 (by decide)
        · rcases List.mem_cons.mp hn' with rfl | hn''
          · exact List.mem_cons_self _ _
          · cases hn''
      · cases hc')
    (by
      intro c hc n hn h1
      rcases List.mem_cons.mp hc with rfl | hc'
      · rcases List.mem_cons.mp hn with rfl | hn'
        · exact List.mem_cons_self _ _
        · rcases List.mem_cons.mp hn' with rfl | hn''
          · exact absurd h1 (by decide)
          · cases hn''
      · cases hc')
    (by
      intro c hc
      rcases List.mem_cons.mp hc with rfl | hc'
      · exact ⟨⟨nodeA8, List.mem_cons_self _ _, rfl⟩,
          ⟨nodeX8, List.mem_cons_of_mem _ (List.mem_cons_self _ _), rfl⟩⟩
      · cases hc')
    (by
      intro c hc
      rcases List.mem_cons.mp hc with rfl | hc'
      · exact fun h => absurd h.1 (by decide)
      · cases hc')

end Promptflow
